import Mathlib

/-!
Verification of the multi-ruleset board-game engine (territory/five-in-a-row/
flip-capture games with undo and keyframe-compacted replay).

The definitions below are a shallow embedding of the Python sources in
`src/core/` (`models.py`, `board.py`, `rules.py`, `game.py`, `go.py`,
`gomoku.py`, `reversi.py`, `replay.py`).  Mutation is turned into explicit
state passing; Python exceptions become `Except GameError`; the unbounded
while-loops of the flood fill and the direction walks become fuel-indexed
recursion with fuel large enough for any board.  Wall-clock timestamps of
replay events (`ts`) are not modelled (real time); they influence nothing that
is proved here.
-/

/-- `models.PlayerColor`: enumeration {BLACK = 1, WHITE = 2}. -/
inductive PlayerColor where
  | black
  | white
deriving DecidableEq, Repr

/-- `PlayerColor.value` as stored in snapshots/serialized data. -/
def PlayerColor.val : PlayerColor → Nat
  | .black => 1
  | .white => 2

/-- Inverse of `PlayerColor.val`; the Python `PlayerColor(v)` constructor
(only ever applied to 1 or 2 in the code). -/
def PlayerColor.ofVal (n : Nat) : PlayerColor :=
  if n = 1 then .black else .white

/-- The opponent color (`WHITE if x == BLACK else BLACK`, used throughout). -/
def PlayerColor.other : PlayerColor → PlayerColor
  | .black => .white
  | .white => .black

/-- `models.Piece`: enumeration {EMPTY = 0, BLACK = 1, WHITE = 2}. -/
inductive Piece where
  | empty
  | black
  | white
deriving DecidableEq, Repr

/-- `Piece.value`. -/
def Piece.val : Piece → Nat
  | .empty => 0
  | .black => 1
  | .white => 2

/-- The Python `Piece(v)` constructor; only ever applied to 0/1/2. -/
def Piece.ofVal (n : Nat) : Piece :=
  if n = 0 then .empty else if n = 1 then .black else .white

/-- `Piece.from_player`. -/
def Piece.from_player (p : PlayerColor) : Piece :=
  if p = PlayerColor.black then Piece.black else Piece.white

/-- `models.Position`: an immutable (row, col) pair of Python ints. -/
structure Position where
  row : Int
  col : Int
deriving DecidableEq, Repr

/-- `models.Move`: acting color, optional position, pass and resign flags. -/
structure Move where
  player : PlayerColor
  pos : Option Position
  pass_move : Bool
  resign : Bool
deriving DecidableEq, Repr

/-- The distinct failure conditions raised as `GameError` (plus the
`AttributeError` a `None` position would raise inside an effect function, and
the internal suicide invariant error of the territory engine). -/
inductive GameError where
  | gameOver
  | wrongTurn
  | illegalMove
  | suicidePoint
  | cannotFlip
  | noneError
deriving DecidableEq, Repr

/-- `board.Board`: a size and a row-major grid of pieces.  The Python class
keeps `grid` as a list of `size` rows of `size` cells; that shape is the
well-formedness predicate `Board.WF` below. -/
structure Board where
  size : Nat
  grid : List (List Piece)
deriving DecidableEq, Repr

/-- `Board(size)`: fresh all-empty grid (the 8 ≤ size ≤ 19 construction check
is `Board.valid_size`). -/
def Board.create (size : Nat) : Board :=
  ⟨size, List.replicate size (List.replicate size Piece.empty)⟩

/-- The `InvalidSize` construction guard of `Board.__init__`. -/
def Board.valid_size (size : Nat) : Prop := 8 ≤ size ∧ size ≤ 19

/-- Shape invariant of every board the Python code ever builds:
`size` rows, each of length `size`. -/
def Board.WF (b : Board) : Prop :=
  b.grid.length = b.size ∧ ∀ i, i < b.size → (b.grid.getD i []).length = b.size

instance (b : Board) : Decidable b.WF := by
  unfold Board.WF; infer_instance

/-- `Board.in_bounds`. -/
def Board.in_bounds (b : Board) (p : Position) : Bool :=
  decide (0 ≤ p.row) && decide (p.row < (b.size : Int)) &&
  decide (0 ≤ p.col) && decide (p.col < (b.size : Int))

/-- `Board.get`: `grid[row][col]` (total here via defaults; the code only
reads in-bounds cells of well-formed boards, where this agrees). -/
def Board.get (b : Board) (p : Position) : Piece :=
  (b.grid.getD p.row.toNat []).getD p.col.toNat Piece.empty

/-- `Board.set`: `grid[row][col] = piece`. -/
def Board.set (b : Board) (p : Position) (piece : Piece) : Board :=
  { b with grid := b.grid.set p.row.toNat ((b.grid.getD p.row.toNat []).set p.col.toNat piece) }

/-- `Board.is_empty`. -/
def Board.is_empty (b : Board) (p : Position) : Bool :=
  b.get p == Piece.empty

/-- `Board.neighbors`: 4-directional, bounds-filtered, in source order. -/
def Board.neighbors (b : Board) (p : Position) : List Position :=
  ([(-1, 0), (1, 0), (0, -1), (0, 1)] : List (Int × Int)).filterMap (fun d =>
    let q : Position := ⟨p.row + d.1, p.col + d.2⟩
    if b.in_bounds q then some q else none)

/-- `Board.to_array`: row-major export of `Piece.value`s. -/
def Board.to_array (b : Board) : List (List Nat) :=
  (List.range b.size).map (fun r =>
    (List.range b.size).map (fun c => ((b.grid.getD r []).getD c Piece.empty).val))

/-- `Board.from_array`: size is the number of rows; cells decoded by
`Piece(v)`.  (The Python version fills a fresh square board cell by cell,
which coincides with this map for the square arrays `to_array` produces.) -/
def Board.from_array (arr : List (List Nat)) : Board :=
  ⟨arr.length, arr.map (fun row => row.map Piece.ofVal)⟩

/-- The in-place loop `for s in l: board.set(s, v)` used by the capture and
revert passes of the territory engine. -/
def Board.set_all (b : Board) (l : List Position) (v : Piece) : Board :=
  l.foldl (fun bb s => bb.set s v) b

/-- Cells of the two positions coincide as grid indices. -/
def Position.cell_eq (p q : Position) : Prop :=
  p.row.toNat = q.row.toNat ∧ p.col.toNat = q.col.toNat

instance (p q : Position) : Decidable (p.cell_eq q) := by
  unfold Position.cell_eq; infer_instance

/-- Worker for `flood_group_and_liberties`: the explicit-stack DFS of the
Python while-loop.  `visited`, `stones`, `liberties` are the Python sets,
represented as duplicate-free-by-insertion lists; the stack pops from the
head (the Python list pops from the tail, so pushes are reversed here to
preserve traversal order).  Fuel bounds the loop; the wrapper passes more
fuel than the loop can ever consume on its board. -/
def floodAux (b : Board) (color : Piece) :
    Nat → List Position → List Position → List Position → List Position →
    List Position × List Position
  | 0, _, _, stones, libs => (stones, libs)
  | _ + 1, [], _, stones, libs => (stones, libs)
  | fuel + 1, p :: rest, visited, stones, libs =>
    if p ∈ visited then
      floodAux b color fuel rest visited stones libs
    else
      let visited2 := p :: visited
      let stones2 := p :: stones
      let nbs := b.neighbors p
      let libs2 := nbs.foldl (fun acc nb =>
        if b.get nb = Piece.empty ∧ ¬ nb ∈ acc then nb :: acc else acc) libs
      let pushes := (nbs.filter (fun nb =>
        decide (b.get nb = color ∧ ¬ nb ∈ visited2))).reverse
      floodAux b color fuel (pushes ++ rest) visited2 stones2 libs2

/-- `rules.flood_group_and_liberties`: (stones, liberties) of the group at
`start`; empty start yields two empty sets. -/
def flood_group_and_liberties (b : Board) (start : Position) :
    List Position × List Position :=
  if b.get start = Piece.empty then ([], [])
  else floodAux b (b.get start) (b.size * b.size * 4 + 5) [start] [] [] []

/-- `rules.capture_if_no_liberty`: removes opponent groups among `positions`
that have no liberties, returning the board and the captured-stone count.
`seen` accumulates already-processed group members exactly as the Python set
union does. -/
def capture_if_no_liberty (b0 : Board) (positions : List Position) :
    Board × Nat :=
  let r := positions.foldl
    (fun (acc : Board × Nat × List Position) (p : Position) =>
      if p ∈ acc.2.2 then acc
      else if acc.1.get p = Piece.empty then acc
      else
        let sl := flood_group_and_liberties acc.1 p
        let seen2 := acc.2.2 ++ sl.1
        if sl.2.isEmpty then
          (acc.1.set_all sl.1 Piece.empty, acc.2.1 + sl.1.length, seen2)
        else (acc.1, acc.2.1, seen2))
    (b0, 0, [])
  (r.1, r.2.1)

/-- The cell test of the `is_five_in_a_row` while-loops and of the
claim-side run predicate: in bounds and holding `piece`. -/
def okCell (b : Board) (piece : Piece) (r c : Int) : Prop :=
  (0 ≤ r ∧ r < (b.size : Int) ∧ 0 ≤ c ∧ c < (b.size : Int)) ∧ b.get ⟨r, c⟩ = piece

instance (b : Board) (piece : Piece) (r c : Int) : Decidable (okCell b piece r c) := by
  unfold okCell; infer_instance

/-- One arm of the `is_five_in_a_row` while-loops: how many consecutive cells
starting at `(r, c)` and stepping by `(dr, dc)` are in bounds and hold
`piece`. -/
def countDir (b : Board) (piece : Piece) (dr dc : Int) :
    Nat → Int → Int → Nat
  | 0, _, _ => 0
  | fuel + 1, r, c =>
    if okCell b piece r c then
      countDir b piece dr dc fuel (r + dr) (c + dc) + 1
    else 0

/-- The four orientations scanned by `is_five_in_a_row`. -/
def dirs4 : List (Int × Int) := [(1, 0), (0, 1), (1, 1), (1, -1)]

/-- `rules.is_five_in_a_row`: for each orientation, count the contiguous
same-piece run through `p` (1 for `p` itself plus both arms) and test ≥ 5.
The Python loop runs at most `size` steps per arm, so fuel `size + 1` never
runs out. -/
def is_five_in_a_row (b : Board) (p : Position) (piece : Piece) : Bool :=
  dirs4.any (fun d =>
    let back := countDir b piece (-d.1) (-d.2) (b.size + 1) (p.row - d.1) (p.col - d.2)
    let fwd := countDir b piece d.1 d.2 (b.size + 1) (p.row + d.1) (p.col + d.2)
    decide (1 + back + fwd ≥ 5))

/-- Mutable state of a `GoGame` that `snapshot`/`restore` covers: the base
`Game` fields plus capture counters, consecutive-pass counter and komi
(`komi` is a Python float holding values like 7.5, modelled as a rational). -/
structure GoCore where
  board : Board
  current : PlayerColor
  ended : Bool
  winner : Option PlayerColor
  last_pos : Option Position
  captured_black : Nat
  captured_white : Nat
  consecutive_pass : Nat
  komi : Rat
deriving DecidableEq, Repr

/-- `Piece.BLACK if piece == Piece.WHITE else Piece.WHITE` in `GoGame`. -/
def GoGame.opp_piece (piece : Piece) : Piece :=
  if piece = Piece.white then Piece.black else Piece.white

/-- The adjacent opposing stones of `p`, on the board with the stone placed. -/
def GoGame.adj_opp (b1 : Board) (p : Position) (opp : Piece) : List Position :=
  (b1.neighbors p).filter (fun nb => b1.get nb == opp)

/-- The `to_clear` list of `GoGame.is_legal`: all stones of zero-liberty
adjacent opposing groups (with duplicates when one group adjoins `p` twice,
exactly as the Python loop extends the list once per adjacent stone). -/
def GoGame.to_clear (b1 : Board) (p : Position) (opp : Piece) : List Position :=
  (GoGame.adj_opp b1 p opp).foldl (fun acc nb =>
    let sl := flood_group_and_liberties b1 nb
    if sl.2.isEmpty then acc ++ sl.1 else acc) []

/-- `GoGame.is_legal`, keeping the simulated board: the boolean result plus
the board as it stands after the final revert (`set p EMPTY` followed by
restoring each cleared stone to the opposing color).  The Python method
mutates `self.board` in place and relies on that revert; the second component
makes the claim "the simulation fully reverts the board" stateable. -/
def GoGame.is_legal_sim (g : GoCore) (m : Move) : Bool × Board :=
  if m.resign then (true, g.board)
  else if m.pass_move then (true, g.board)
  else
    match m.pos with
    | none => (false, g.board)
    | some p =>
      if ! g.board.in_bounds p then (false, g.board)
      else if ! g.board.is_empty p then (false, g.board)
      else
        let piece := Piece.from_player m.player
        let b1 := g.board.set p piece
        let opp := GoGame.opp_piece piece
        let tc := GoGame.to_clear b1 p opp
        let b2 := b1.set_all tc Piece.empty
        let captured := tc.length
        let sl := flood_group_and_liberties b2 p
        let legal := decide (sl.2.length > 0) || decide (captured > 0)
        let b3 := b2.set p Piece.empty
        let b4 := b3.set_all tc opp
        (legal, b4)

/-- `GoGame.is_legal` proper. -/
def GoGame.is_legal (g : GoCore) (m : Move) : Bool :=
  (GoGame.is_legal_sim g m).1

/-- `GoGame.apply_move`. -/
def GoGame.apply_move (g : GoCore) (m : Move) : Except GameError GoCore :=
  if m.resign then
    .ok { g with ended := true, winner := some m.player.other }
  else if m.pass_move then
    let cp := g.consecutive_pass + 1
    if cp ≥ 2 then
      .ok { g with consecutive_pass := cp, last_pos := none, ended := true }
    else
      .ok { g with
              consecutive_pass := cp
              last_pos := none
              current := g.current.other }
  else
    match m.pos with
    | none => .error .noneError
    | some p =>
      let piece := Piece.from_player m.player
      let b1 := g.board.set p piece
      let opp := GoGame.opp_piece piece
      let adj := GoGame.adj_opp b1 p opp
      let bc := capture_if_no_liberty b1 adj
      let cb := if bc.2 > 0 ∧ opp = Piece.black then g.captured_black + bc.2
        else g.captured_black
      let cw := if bc.2 > 0 ∧ opp = Piece.white then g.captured_white + bc.2
        else g.captured_white
      let sl := flood_group_and_liberties bc.1 p
      if sl.2.length = 0 then .error .suicidePoint
      else
        .ok { g with
                board := bc.1
                last_pos := some p
                consecutive_pass := 0
                captured_black := cb
                captured_white := cw
                current := g.current.other }

/-- `GoGame.snapshot` dictionary. -/
structure GoSnap where
  board : List (List Nat)
  current : Nat
  ended : Bool
  winner : Option Nat
  last : Option (Int × Int)
  captured_black : Nat
  captured_white : Nat
  consecutive_pass : Nat
  komi : Rat
deriving DecidableEq, Repr

/-- `Game.snapshot` extended by `GoGame.snapshot`. -/
def GoGame.snapshot (g : GoCore) : GoSnap :=
  { board := g.board.to_array
    current := g.current.val
    ended := g.ended
    winner := g.winner.map PlayerColor.val
    last := g.last_pos.map (fun p => (p.row, p.col))
    captured_black := g.captured_black
    captured_white := g.captured_white
    consecutive_pass := g.consecutive_pass
    komi := g.komi }

/-- `Game.restore` extended by `GoGame.restore`; every field is overwritten
from the snapshot (the `if snap["winner"]` truthiness test also treats the
numeric value 0 as absent, as Python does). -/
def GoGame.restore (s : GoSnap) : GoCore :=
  { board := Board.from_array s.board
    current := PlayerColor.ofVal s.current
    ended := s.ended
    winner := match s.winner with
      | none => none
      | some v => if v = 0 then none else some (PlayerColor.ofVal v)
    last_pos := s.last.map (fun rc => ⟨rc.1, rc.2⟩)
    captured_black := s.captured_black
    captured_white := s.captured_white
    consecutive_pass := s.consecutive_pass
    komi := s.komi }

/-- `Game.step` for the territory engine: ended gate, turn gate (pass and
resign exempt), legality gate, snapshot push, effect.  Recorder side effects
touch neither the core state nor the history and are modelled separately. -/
def GoGame.step (g : GoCore) (hist : List GoSnap) (m : Move) :
    Except GameError (GoCore × List GoSnap) :=
  if g.ended then .error .gameOver
  else if m.player ≠ g.current ∧ m.resign = false ∧ m.pass_move = false then
    .error .wrongTurn
  else if GoGame.is_legal g m = false then .error .illegalMove
  else do
    let g2 ← GoGame.apply_move g m
    pure (g2, GoGame.snapshot g :: hist)

/-- `Game.undo` for the territory engine. -/
def GoGame.undo (g : GoCore) (hist : List GoSnap) :
    Bool × GoCore × List GoSnap :=
  match hist with
  | [] => (false, g, [])
  | s :: rest => (true, GoGame.restore s, rest)

/-- Fresh `GoGame(size, komi)` state. -/
def GoGame.fresh (size : Nat) (komi : Rat) : GoCore :=
  ⟨Board.create size, .black, false, none, none, 0, 0, 0, komi⟩

/-- Mutable state covered by the plain `Game.snapshot`/`restore` (both
`GomokuGame` and `ReversiGame` add no extra persistent fields). -/
structure BaseCore where
  board : Board
  current : PlayerColor
  ended : Bool
  winner : Option PlayerColor
  last_pos : Option Position
deriving DecidableEq, Repr

/-- The plain `Game.snapshot` dictionary. -/
structure BaseSnap where
  board : List (List Nat)
  current : Nat
  ended : Bool
  winner : Option Nat
  last : Option (Int × Int)
deriving DecidableEq, Repr

/-- `Game.snapshot`. -/
def BaseGame.snapshot (g : BaseCore) : BaseSnap :=
  { board := g.board.to_array
    current := g.current.val
    ended := g.ended
    winner := g.winner.map PlayerColor.val
    last := g.last_pos.map (fun p => (p.row, p.col)) }

/-- `Game.restore`. -/
def BaseGame.restore (s : BaseSnap) : BaseCore :=
  { board := Board.from_array s.board
    current := PlayerColor.ofVal s.current
    ended := s.ended
    winner := match s.winner with
      | none => none
      | some v => if v = 0 then none else some (PlayerColor.ofVal v)
    last_pos := s.last.map (fun rc => ⟨rc.1, rc.2⟩) }

/-- Fresh abstract `Game(size)` state. -/
def BaseGame.fresh (size : Nat) : BaseCore :=
  ⟨Board.create size, .black, false, none, none⟩

/-- `GomokuGame.is_legal`: resign always, pass never, placement on an empty
in-bounds cell. -/
def GomokuGame.is_legal (g : BaseCore) (m : Move) : Bool :=
  if m.resign then true
  else if m.pass_move then false
  else
    match m.pos with
    | none => false
    | some p =>
      if ! g.board.in_bounds p then false
      else if ! g.board.is_empty p then false
      else true

/-- The board-full test of `GomokuGame.apply_move`
(`all(grid[r][c] != EMPTY ...)`). -/
def GomokuGame.board_full (b : Board) : Bool :=
  (List.range b.size).all (fun r =>
    (List.range b.size).all (fun c =>
      ! ((b.grid.getD r []).getD c Piece.empty == Piece.empty)))

/-- `GomokuGame.apply_move`. -/
def GomokuGame.apply_move (g : BaseCore) (m : Move) : Except GameError BaseCore :=
  if m.resign then .ok { g with ended := true, winner := some m.player.other }
  else
    match m.pos with
    | none => .error .noneError
    | some p =>
      let piece := Piece.from_player m.player
      let b1 := g.board.set p piece
      let g1 := { g with board := b1, last_pos := some p }
      let g2 :=
        if is_five_in_a_row b1 p piece then
          { g1 with ended := true, winner := some m.player }
        else if GomokuGame.board_full b1 then
          { g1 with ended := true, winner := none }
        else g1
      .ok (if g2.ended then g2 else { g2 with current := g.current.other })

/-- `Game.step` for the five-in-a-row engine. -/
def GomokuGame.step (g : BaseCore) (hist : List BaseSnap) (m : Move) :
    Except GameError (BaseCore × List BaseSnap) :=
  if g.ended then .error .gameOver
  else if m.player ≠ g.current ∧ m.resign = false ∧ m.pass_move = false then
    .error .wrongTurn
  else if GomokuGame.is_legal g m = false then .error .illegalMove
  else do
    let g2 ← GomokuGame.apply_move g m
    pure (g2, BaseGame.snapshot g :: hist)

/-- `Game.undo` for the five-in-a-row engine. -/
def GomokuGame.undo (g : BaseCore) (hist : List BaseSnap) :
    Bool × BaseCore × List BaseSnap :=
  match hist with
  | [] => (false, g, [])
  | s :: rest => (true, BaseGame.restore s, rest)

/-- The eight walk directions. -/
def ReversiGame.DIR8 : List (Int × Int) :=
  [(-1, -1), (-1, 0), (-1, 1), (0, -1), (0, 1), (1, -1), (1, 0), (1, 1)]

/-- `ReversiGame._piece_of`. -/
def ReversiGame.piece_of (player : PlayerColor) : Piece :=
  if player = PlayerColor.black then Piece.black else Piece.white

/-- `ReversiGame._opponent_piece`. -/
def ReversiGame.opponent_piece (player : PlayerColor) : Piece :=
  if player = PlayerColor.black then Piece.white else Piece.black

/-- The while-loop of `ReversiGame._captures_in_dir`: walk from `(r, c)` in
direction `(dr, dc)` over opponent discs; a same-color disc ends the walk
returning the buffer, an empty cell or the edge returns nothing.  The walk
moves one cell per step, so fuel `size + 1` never runs out. -/
def ReversiGame.capturesAux (b : Board) (opp me : Piece) (dr dc : Int) :
    Nat → Int → Int → List Position → List Position
  | 0, _, _, _ => []
  | fuel + 1, r, c, buf =>
    if 0 ≤ r ∧ r < (b.size : Int) ∧ 0 ≤ c ∧ c < (b.size : Int) then
      if b.get ⟨r, c⟩ = opp then
        ReversiGame.capturesAux b opp me dr dc fuel (r + dr) (c + dc)
          (buf ++ [⟨r, c⟩])
      else if b.get ⟨r, c⟩ = me then buf
      else []
    else []

/-- `ReversiGame._captures_in_dir`. -/
def ReversiGame.captures_in_dir (b : Board) (start : Position) (dr dc : Int)
    (player : PlayerColor) : List Position :=
  ReversiGame.capturesAux b (ReversiGame.opponent_piece player)
    (ReversiGame.piece_of player) dr dc (b.size + 1)
    (start.row + dr) (start.col + dc) []

/-- `ReversiGame.is_legal`. -/
def ReversiGame.is_legal (g : BaseCore) (m : Move) : Bool :=
  if m.resign then true
  else if m.pass_move then false
  else
    match m.pos with
    | none => false
    | some p =>
      if m.player ≠ g.current then false
      else if ! g.board.in_bounds p || ! g.board.is_empty p then false
      else ReversiGame.DIR8.any (fun d =>
        ! (ReversiGame.captures_in_dir g.board p d.1 d.2 m.player).isEmpty)

/-- `ReversiGame.apply_move`. -/
def ReversiGame.apply_move (g : BaseCore) (m : Move) : Except GameError BaseCore :=
  if m.resign then .ok { g with ended := true, winner := some m.player.other }
  else
    match m.pos with
    | none => .error .noneError
    | some p =>
      let me := ReversiGame.piece_of m.player
      let flips := ReversiGame.DIR8.foldl
        (fun acc d => acc ++ ReversiGame.captures_in_dir g.board p d.1 d.2 m.player) []
      if flips.isEmpty then .error .cannotFlip
      else
        let b1 := (g.board.set p me).set_all flips me
        .ok { g with board := b1, last_pos := some p, current := g.current.other }

/-- `Game.step` for the flip-capture engine. -/
def ReversiGame.step (g : BaseCore) (hist : List BaseSnap) (m : Move) :
    Except GameError (BaseCore × List BaseSnap) :=
  if g.ended then .error .gameOver
  else if m.player ≠ g.current ∧ m.resign = false ∧ m.pass_move = false then
    .error .wrongTurn
  else if ReversiGame.is_legal g m = false then .error .illegalMove
  else do
    let g2 ← ReversiGame.apply_move g m
    pure (g2, BaseGame.snapshot g :: hist)

/-- `Game.undo` for the flip-capture engine. -/
def ReversiGame.undo (g : BaseCore) (hist : List BaseSnap) :
    Bool × BaseCore × List BaseSnap :=
  match hist with
  | [] => (false, g, [])
  | s :: rest => (true, BaseGame.restore s, rest)

/-- `ReversiGame._init_start`: the four canonical centre discs, Black to
move. -/
def ReversiGame.init_start (g : BaseCore) : BaseCore :=
  let s := g.board.size
  let c2 : Int := (s / 2 : Nat)
  let c1 : Int := c2 - 1
  let b := (((g.board.set ⟨c1, c1⟩ Piece.white).set ⟨c2, c2⟩ Piece.white).set
    ⟨c1, c2⟩ Piece.black).set ⟨c2, c1⟩ Piece.black
  { g with board := b, current := .black, last_pos := none }

/-- Fresh `ReversiGame(size)` state. -/
def ReversiGame.fresh (size : Nat) : BaseCore :=
  ReversiGame.init_start (BaseGame.fresh size)

/-- `ReversiGame.count_discs` as a (black, white) pair. -/
def ReversiGame.count_discs (b : Board) : Nat × Nat :=
  (List.range b.size).foldl (fun acc r =>
    (List.range b.size).foldl (fun acc2 c =>
      if (b.grid.getD r []).getD c Piece.empty = Piece.black then
        (acc2.1 + 1, acc2.2)
      else if (b.grid.getD r []).getD c Piece.empty = Piece.white then
        (acc2.1, acc2.2 + 1)
      else acc2) acc) (0, 0)

/-- Event tags of `ReplayEvent.type`. -/
inductive EvType where
  | move
  | pass
  | resign
  | skip
deriving DecidableEq, Repr

/-- `replay.ReplayEvent` (without the wall-clock `ts` field, which is real
time and affects no replayed state). -/
structure ReplayEvent where
  type : EvType
  player : Option PlayerColor
  row : Option Int
  col : Option Int
  snap_index : Nat
deriving DecidableEq, Repr

/-- `replay.Recorder`, generic in the snapshot dictionary of the engine it
records. -/
structure Recorder (Snap : Type) where
  enabled : Bool
  events : List ReplayEvent
  snapshots : List Snap
  k : Nat
deriving DecidableEq, Repr

/-- `Recorder(keyframe_every)` followed by `start()`: enabled, empty log,
`k = max(1, keyframe_every)`. -/
def Recorder.init (Snap : Type) (keyframe_every : Nat) : Recorder Snap :=
  ⟨true, [], [], max 1 keyframe_every⟩

/-- `Recorder._maybe_keyframe`: capture a first keyframe if none exists,
else capture one whenever the event count is a multiple of `k`; return the
index of the latest keyframe.  `snap` is `game.snapshot()` at call time. -/
def Recorder.maybe_keyframe {Snap : Type} (r : Recorder Snap) (snap : Snap) :
    Recorder Snap × Nat :=
  if r.snapshots.isEmpty then
    ({ r with snapshots := r.snapshots ++ [snap] }, 0)
  else
    let r2 := if r.events.length % r.k = 0 then
      { r with snapshots := r.snapshots ++ [snap] } else r
    (r2, r2.snapshots.length - 1)

/-- `Recorder.on_move`.  The caller passes `game.snapshot()` of the game as
it stands at the hook call (that is, after `apply_move` ran in `step`). -/
def Recorder.on_move {Snap : Type} (r : Recorder Snap) (snap : Snap) (m : Move) :
    Recorder Snap :=
  if ! r.enabled then r
  else
    let ri := r.maybe_keyframe snap
    { ri.1 with events := ri.1.events ++
        [⟨.move, some m.player, m.pos.map Position.row, m.pos.map Position.col, ri.2⟩] }

/-- `Recorder.on_pass`. -/
def Recorder.on_pass {Snap : Type} (r : Recorder Snap) (snap : Snap)
    (player : PlayerColor) : Recorder Snap :=
  if ! r.enabled then r
  else
    let ri := r.maybe_keyframe snap
    { ri.1 with events := ri.1.events ++ [⟨.pass, some player, none, none, ri.2⟩] }

/-- `Recorder.on_resign`. -/
def Recorder.on_resign {Snap : Type} (r : Recorder Snap) (snap : Snap)
    (player : PlayerColor) : Recorder Snap :=
  if ! r.enabled then r
  else
    let ri := r.maybe_keyframe snap
    { ri.1 with events := ri.1.events ++ [⟨.resign, some player, none, none, ri.2⟩] }

/-- A live five-in-a-row game as `Game.__init__` builds it: core state, undo
history, recorder (`Recorder(keyframe_every=10)` then `start()`). -/
structure GomokuMachine where
  core : BaseCore
  history : List BaseSnap
  recorder : Recorder BaseSnap
deriving DecidableEq, Repr

/-- Fresh `GomokuGame(size)` with its recorder. -/
def GomokuGame.fresh_machine (size : Nat) : GomokuMachine :=
  ⟨BaseGame.fresh size, [], Recorder.init BaseSnap 10⟩

/-- `Game.step` for the five-in-a-row engine including the recorder hooks:
the snapshot pushed on the history is taken before `apply_move`, but the
recorder hooks run after it, on the already-mutated game. -/
def GomokuGame.step_rec (g : GomokuMachine) (m : Move) :
    Except GameError GomokuMachine :=
  if g.core.ended then .error .gameOver
  else if m.player ≠ g.core.current ∧ m.resign = false ∧ m.pass_move = false then
    .error .wrongTurn
  else if GomokuGame.is_legal g.core m = false then .error .illegalMove
  else do
    let c2 ← GomokuGame.apply_move g.core m
    let hist2 := BaseGame.snapshot g.core :: g.history
    let r2 :=
      if m.resign then g.recorder.on_resign (BaseGame.snapshot c2) m.player
      else if m.pass_move then g.recorder.on_pass (BaseGame.snapshot c2) m.player
      else g.recorder.on_move (BaseGame.snapshot c2) m
    pure ⟨c2, hist2, r2⟩

/-- The engine operations `Replayer` invokes on its duck-typed `_game`
(`is_legal`, `apply_move`, `restore`, and reading/forcing `current`). -/
structure EngineOps (Core Snap : Type) where
  is_legal : Core → Move → Bool
  apply_move : Core → Move → Except GameError Core
  restore : Snap → Core
  getCur : Core → PlayerColor
  setCur : Core → PlayerColor → Core

/-- `replay.Replayer` over a loaded log: events, snapshots, `k`, the cursor
(`-1` = initial state), and the reconstructed live game.  The Python object
also toggles the game's recorder flags, which touch none of the replayed
state. -/
structure Replayer (Core Snap : Type) where
  events : List ReplayEvent
  snapshots : List Snap
  k : Nat
  index : Int
  core : Core
deriving DecidableEq

/-- `Replayer._apply_event_no_step`: force the acting color, then run the
engine's legality check and effect, skipping the event silently when the
check fails; a `skip` event just flips `current`. -/
def Replayer.apply_event_no_step {Core Snap : Type} (E : EngineOps Core Snap)
    (c : Core) (e : ReplayEvent) : Except GameError Core :=
  if e.type = .skip then
    .ok (E.setCur c (E.getCur c).other)
  else
    let c1 := match e.player with
      | some pl => E.setCur c pl
      | none => c
    let mv : Move := match e.type with
      | .move => { player := E.getCur c1
                   pos := match e.row, e.col with
                     | some r, some cc => some ⟨r, cc⟩
                     | _, _ => none
                   pass_move := false
                   resign := false }
      | .pass => ⟨E.getCur c1, none, true, false⟩
      | _ => ⟨E.getCur c1, none, false, true⟩
    if ! E.is_legal c1 mv then .ok c1
    else E.apply_move c1 mv

/-- Clamp of `seek`: `max(-1, min(n, total - 1))`. -/
def Replayer.clamp {Core Snap : Type} (rp : Replayer Core Snap) (n : Int) : Int :=
  max (-1) (min n ((rp.events.length : Int) - 1))

/-- The recomputation path of `Replayer.seek` for an (already clamped)
target `n`: restore the nearest keyframe at or before `n` when any keyframe
exists (otherwise start from the current game state), then replay events
`[start_event, n]`. -/
def Replayer.seek_compute {Core Snap : Type} (E : EngineOps Core Snap)
    (rp : Replayer Core Snap) (n : Int) : Except GameError Core :=
  let sc : Core × Nat :=
    match rp.snapshots with
    | [] => (rp.core, 0)
    | s0 :: _ =>
      let key_idx : Nat :=
        if 0 ≤ n then min (n.toNat / rp.k) (rp.snapshots.length - 1) else 0
      (E.restore (rp.snapshots.getD key_idx s0), key_idx * rp.k)
  let idxs : List Nat :=
    if 0 ≤ n then List.range' sc.2 (n.toNat + 1 - sc.2) else []
  idxs.foldlM (fun c i =>
    Replayer.apply_event_no_step E c
      (rp.events.getD i ⟨.skip, none, none, none, 0⟩)) sc.1

/-- `Replayer.seek`: clamp, return unchanged when already at the target,
else recompute the state and move the cursor. -/
def Replayer.seek {Core Snap : Type} (E : EngineOps Core Snap)
    (rp : Replayer Core Snap) (n0 : Int) : Except GameError (Replayer Core Snap) :=
  if rp.clamp n0 = rp.index then .ok rp
  else do
    let c ← Replayer.seek_compute E rp (rp.clamp n0)
    pure { rp with core := c, index := rp.clamp n0 }

/-- `Replayer.load`: adopt the log, clamp `k` (`max(1, k or 10)`), cursor at
`-1`, game rebuilt by the factory (`fresh`) and set to keyframe 0 when one
exists. -/
def Replayer.load {Core Snap : Type} (E : EngineOps Core Snap) (fresh : Core)
    (snapshots : List Snap) (events : List ReplayEvent) (k : Nat) :
    Replayer Core Snap :=
  { events := events
    snapshots := snapshots
    k := max 1 (if k = 0 then 10 else k)
    index := -1
    core := match snapshots with
      | [] => fresh
      | s0 :: _ => E.restore s0 }

/-- The `EngineOps` of a live `GoGame` as the replayer drives it. -/
def GoGame.ops : EngineOps GoCore GoSnap :=
  { is_legal := GoGame.is_legal
    apply_move := GoGame.apply_move
    restore := GoGame.restore
    getCur := GoCore.current
    setCur := fun c pl => { c with current := pl } }


deriving instance DecidableEq for Except

/-- Claim-side condition of the suicide rule: some adjacent opposing group of
the placed stone (on the board `b1` with the stone placed) has zero
liberties, i.e. at least one opposing stone is captured by the placement. -/
def GoGame.captures_opponent (b1 : Board) (p : Position) (opp : Piece) : Prop :=
  ∃ nb ∈ b1.neighbors p, b1.get nb = opp ∧ (flood_group_and_liberties b1 nb).2 = []

instance (b1 : Board) (p : Position) (opp : Piece) :
    Decidable (GoGame.captures_opponent b1 p opp) := by
  unfold GoGame.captures_opponent; infer_instance

/-- Window start offsets of a five-cell run through the new stone. -/
def winOffsets : List Int := [-4, -3, -2, -1, 0]

/-- Steps within a five-cell window. -/
def winSteps : List Int := [0, 1, 2, 3, 4]

/-- Claim-side statement of "a contiguous same-color run of length at least 5
through `p` in one of the four orientations": five consecutive cells, all in
bounds and holding `piece`, whose window contains `p` (offset 0). -/
def hasFiveRun (b : Board) (p : Position) (piece : Piece) : Prop :=
  ∃ d ∈ dirs4, ∃ s ∈ winOffsets, ∀ t ∈ winSteps,
    okCell b piece (p.row + (s + t) * d.1) (p.col + (s + t) * d.2)

instance (b : Board) (p : Position) (piece : Piece) : Decidable (hasFiveRun b p piece) := by
  unfold hasFiveRun; infer_instance

/-- Claim-side board-full statement: no cell of the grid is empty. -/
def board_full_prop (b : Board) : Prop :=
  ∀ r : Nat, r < b.size → ∀ c : Nat, c < b.size →
    (b.grid.getD r []).getD c Piece.empty ≠ Piece.empty

instance (b : Board) : Decidable (board_full_prop b) := by
  unfold board_full_prop; infer_instance

/-- The default komi 7.5 as the rational 15/2 (given in lowest terms so
that equality tests reduce). -/
def default_komi : Rat := ⟨15, 2, by decide, by decide⟩

/-- Fresh territory game of size 8 with the default komi 7.5. -/
def goFresh8 : GoCore := GoGame.fresh 8 default_komi

/-- A pass issued by White. -/
def mvPassWhite : Move := ⟨.white, none, true, false⟩

/-- A pass issued by Black. -/
def mvPassBlack : Move := ⟨.black, none, true, false⟩

/-- Fresh flip-capture game of size 8 (four centre discs, Black to move). -/
def reversiInit8 : BaseCore := ReversiGame.fresh 8

/-- The opening move of the claimed scenario: Black at (2,4). -/
def c9_move_claim : Move := ⟨.black, some ⟨2, 4⟩, false, false⟩

/-- The opening move the code actually accepts there: Black at (2,3). -/
def c9_move_real : Move := ⟨.black, some ⟨2, 3⟩, false, false⟩

/-- Project the resulting core out of a base-engine step result. -/
def stepResultBase : Except GameError (BaseCore × List BaseSnap) → Option BaseCore
  | .ok cg => some cg.1
  | .error _ => none

/-- A territory game one pass away from ending: White to move after a Black
pass (reachable from `goFresh8` by stepping that pass). -/
def c7_state : GoCore :=
  { GoGame.fresh 9 default_komi with current := .white, consecutive_pass := 1 }

/-- An ended five-in-a-row game. -/
def c5_state : BaseCore := { BaseGame.fresh 8 with ended := true }

/-- A positionless non-pass non-resign move by White. -/
def c10_move : Move := ⟨.white, none, false, false⟩

/-- Fresh recorded five-in-a-row game of size 8. -/
def c1_machine0 : GomokuMachine := GomokuGame.fresh_machine 8

/-- Black plays (0,0) as the very first recorded event. -/
def c1_move : Move := ⟨.black, some ⟨0, 0⟩, false, false⟩

/-- The machine after that first recorded move. -/
def c1_machine1 : GomokuMachine :=
  match GomokuGame.step_rec c1_machine0 c1_move with
  | .ok g => g
  | .error _ => c1_machine0

/-- Unwrap a seek result, falling back to a default replayer. -/
def exceptOkOr {Core Snap : Type} (d : Replayer Core Snap) :
    Except GameError (Replayer Core Snap) → Replayer Core Snap
  | .ok r => r
  | .error _ => d

/-- Events of the no-keyframe replay: Black (0,0), then White (0,1) and
White (1,0), whose second white move captures the black corner stone. -/
def c6_events : List ReplayEvent :=
  [⟨.move, some .black, some 0, some 0, 0⟩,
   ⟨.move, some .white, some 0, some 1, 0⟩,
   ⟨.move, some .white, some 1, some 0, 0⟩]

/-- A replay loaded with an empty keyframe list. -/
def c6_rp0 : Replayer GoCore GoSnap :=
  Replayer.load GoGame.ops goFresh8 [] c6_events 10

/-- State after `seek(0)`. -/
def c6_rp1 : Replayer GoCore GoSnap := exceptOkOr c6_rp0 (Replayer.seek GoGame.ops c6_rp0 0)

/-- State after `seek(0); seek(2)`. -/
def c6_rp2 : Replayer GoCore GoSnap := exceptOkOr c6_rp0 (Replayer.seek GoGame.ops c6_rp1 2)

/-- State after `seek(0); seek(2); seek(0)`. -/
def c6_rp3 : Replayer GoCore GoSnap := exceptOkOr c6_rp0 (Replayer.seek GoGame.ops c6_rp2 0)

/-- The single recorded event of the keyframed witness replay. -/
def c6w_events : List ReplayEvent := [⟨.move, some .black, some 0, some 0, 0⟩]

/-- Keyframe 0 of the witness replay: the fresh game. -/
def c6w_snap : GoSnap := GoGame.snapshot goFresh8

/-- A one-event replay with a keyframe, as the recorder-produced logs have. -/
def c6w_rp0 : Replayer GoCore GoSnap :=
  Replayer.load GoGame.ops goFresh8 [c6w_snap] c6w_events 10

/-- Suicide setup: White on (0,1) and (1,0), Black to play the corner. -/
def c4_state : GoCore :=
  { goFresh8 with board := ((Board.create 8).set ⟨0, 1⟩ Piece.white).set ⟨1, 0⟩ Piece.white }

/-- Black plays the corner (0,0). -/
def c4_move : Move := ⟨.black, some ⟨0, 0⟩, false, false⟩

/-- Four black stones on row 0, columns 0..3. -/
def c8_state : BaseCore :=
  { BaseGame.fresh 8 with board :=
      ((((Board.create 8).set ⟨0, 0⟩ Piece.black).set ⟨0, 1⟩ Piece.black).set
        ⟨0, 2⟩ Piece.black).set ⟨0, 3⟩ Piece.black }

/-- Black completes five in a row at (0,4). -/
def c8_move : Move := ⟨.black, some ⟨0, 4⟩, false, false⟩

/-- Fresh five-in-a-row game of size 8. -/
def c3_fresh : BaseCore := BaseGame.fresh 8

/-- Black plays (0,0). -/
def c3_move : Move := ⟨.black, some ⟨0, 0⟩, false, false⟩

/-- The stepped state/history pair of the undo witness. -/
def c3_stepped : BaseCore × List BaseSnap :=
  match GomokuGame.step c3_fresh [] c3_move with
  | .ok x => x
  | .error _ => (c3_fresh, [])


/-- Black tries to play on the occupied cell (0,1) of the suicide setup. -/
def c5_occ_move : Move := ⟨.black, some ⟨0, 1⟩, false, false⟩

/-- White on (0,1) walled in by Black (0,2) and (1,1). -/
def c5w_board : Board :=
  (((Board.create 8).set ⟨0, 1⟩ Piece.white).set ⟨0, 2⟩ Piece.black).set ⟨1, 1⟩ Piece.black

/-- A position whose legality simulation really captures and restores: White
on (0,1) is walled in by Black (0,2),(1,1), and Black will probe (0,0). -/
def c5w_state : GoCore := { goFresh8 with board := c5w_board }

/-- Black probes (0,0), capturing White (0,1) during the simulation. -/
def c5w_move : Move := ⟨.black, some ⟨0, 0⟩, false, false⟩

/-- `seek(0)` on the keyframed witness replay. -/
def c6w_rp1 : Replayer GoCore GoSnap := exceptOkOr c6w_rp0 (Replayer.seek GoGame.ops c6w_rp0 0)

/-- ... then `seek(-1)`. -/
def c6w_rp2 : Replayer GoCore GoSnap := exceptOkOr c6w_rp0 (Replayer.seek GoGame.ops c6w_rp1 (-1))

/-- ... then `seek(0)` again. -/
def c6w_rp3 : Replayer GoCore GoSnap := exceptOkOr c6w_rp0 (Replayer.seek GoGame.ops c6w_rp2 0)

/-- An ended territory game. -/
def goEnded8 : GoCore := { goFresh8 with ended := true }

/-- White (not to move) tries the occupied cell (0,1) of the suicide setup. -/
def c5_wrong_move : Move := ⟨.white, some ⟨0, 1⟩, false, false⟩

/-! ### Lemmas and theorems -/

theorem Piece.ofVal_val (p : Piece) : Piece.ofVal p.val = p := by
  cases p <;> rfl

theorem PlayerColor.ofVal_cancel (p : PlayerColor) : PlayerColor.ofVal p.val = p := by
  cases p <;> rfl

theorem PlayerColor.val_ne_zero (p : PlayerColor) : p.val ≠ 0 := by
  cases p <;> simp [PlayerColor.val]

theorem Board.size_set (b : Board) (p : Position) (x : Piece) :
    (b.set p x).size = b.size := rfl

theorem Board.in_bounds_iff (b : Board) (p : Position) :
    b.in_bounds p = true ↔
      0 ≤ p.row ∧ p.row < (b.size : Int) ∧ 0 ≤ p.col ∧ p.col < (b.size : Int) := by
  simp [Board.in_bounds, and_assoc]

theorem Board.in_bounds_set (b : Board) (p q : Position) (x : Piece) :
    (b.set p x).in_bounds q = b.in_bounds q := rfl

theorem list_getD_set_self {α : Type} (l : List α) (i : Nat) (a d : α) (h : i < l.length) :
    (l.set i a).getD i d = a := by
  rw [List.getD_eq_getElem _ _ (by simpa using h)]
  exact List.getElem_set_self (by simpa using h)

theorem list_getD_set_ne {α : Type} (l : List α) (i j : Nat) (a d : α) (h : i ≠ j) :
    (l.set i a).getD j d = l.getD j d := by
  by_cases hj : j < l.length
  · rw [List.getD_eq_getElem _ _ (by simpa using hj), List.getD_eq_getElem _ _ hj]
    exact List.getElem_set_ne h (by simpa using hj)
  · rw [List.getD_eq_default _ _ (by simp; omega), List.getD_eq_default _ _ (by omega)]

theorem Board.WF_set (b : Board) (p : Position) (x : Piece) (h : b.WF) :
    (b.set p x).WF := by
  obtain ⟨hlen, hrow⟩ := h
  refine ⟨by simpa [Board.set] using hlen, ?_⟩
  intro i hi
  simp only [Board.set] at hi ⊢
  by_cases he : p.row.toNat = i
  · subst he
    by_cases hlt : p.row.toNat < b.grid.length
    · rw [list_getD_set_self _ _ _ _ hlt, List.length_set]
      exact hrow _ hi
    · rw [List.set_eq_of_length_le (by omega)]
      exact hrow _ hi
  · rw [list_getD_set_ne _ _ _ _ _ he]
    exact hrow _ hi

theorem Board.get_mk_nat (b : Board) (r c : Nat) :
    b.get ⟨(r : Int), (c : Int)⟩ = (b.grid.getD r []).getD c Piece.empty := by
  simp [Board.get]

theorem Board.get_congr_cell (b : Board) (p q : Position)
    (hr : p.row.toNat = q.row.toNat) (hc : p.col.toNat = q.col.toNat) :
    b.get p = b.get q := by
  simp [Board.get, hr, hc]

theorem Board.get_set_self (b : Board) (p : Position) (x : Piece)
    (hwf : b.WF) (hin : b.in_bounds p = true) : (b.set p x).get p = x := by
  obtain ⟨hlen, hrow⟩ := hwf
  rw [Board.in_bounds_iff] at hin
  have hr : p.row.toNat < b.size := by omega
  have hc : p.col.toNat < b.size := by omega
  simp only [Board.set, Board.get]
  rw [list_getD_set_self _ _ _ _ (by omega),
    list_getD_set_self _ _ _ _ (by rw [hrow _ hr]; omega)]

theorem Board.get_set_ne (b : Board) (p q : Position) (x : Piece)
    (h : p.row.toNat ≠ q.row.toNat ∨ p.col.toNat ≠ q.col.toNat) :
    (b.set p x).get q = b.get q := by
  simp only [Board.set, Board.get]
  rcases h with h | h
  · rw [list_getD_set_ne _ _ _ _ _ h]
  · by_cases hr : p.row.toNat = q.row.toNat
    · rw [← hr]
      by_cases hlt : p.row.toNat < b.grid.length
      · rw [list_getD_set_self _ _ _ _ hlt, list_getD_set_ne _ _ _ _ _ h]
      · rw [List.set_eq_of_length_le (by omega)]
    · rw [list_getD_set_ne _ _ _ _ _ hr]

theorem Board.eq_of_parts (b1 b2 : Board) (hs : b1.size = b2.size)
    (hg : b1.grid = b2.grid) : b1 = b2 := by
  cases b1; cases b2; cases hs; cases hg; rfl

theorem list_range_map_getD {α : Type} (l : List α) (d : α) :
    (List.range l.length).map (fun i => l.getD i d) = l := by
  induction l with
  | nil => rfl
  | cons a t ih =>
    rw [List.length_cons, List.range_succ_eq_map, List.map_cons, List.map_map]
    have h2 : ((fun i => (a :: t).getD i d) ∘ Nat.succ) = (fun i => t.getD i d) := rfl
    rw [h2, ih]
    rfl

theorem Board.ext_get (b1 b2 : Board) (hs : b1.size = b2.size)
    (h1 : b1.WF) (h2 : b2.WF)
    (h : ∀ r c : Nat, r < b1.size → c < b1.size →
      b1.get ⟨(r : Int), (c : Int)⟩ = b2.get ⟨(r : Int), (c : Int)⟩) : b1 = b2 := by
  obtain ⟨len1, row1⟩ := h1
  obtain ⟨len2, row2⟩ := h2
  refine Board.eq_of_parts _ _ hs ?_
  apply List.ext_getElem (by omega)
  intro i hi1 hi2
  have hi : i < b1.size := by omega
  rw [← List.getD_eq_getElem b1.grid [] hi1, ← List.getD_eq_getElem b2.grid [] hi2]
  apply List.ext_getElem (by rw [row1 i hi, row2 i (by omega)]; exact hs)
  intro j hj1 hj2
  have hj : j < b1.size := by rw [row1 i hi] at hj1; omega
  have hcell := h i j hi hj
  rw [Board.get_mk_nat, Board.get_mk_nat] at hcell
  rw [← List.getD_eq_getElem _ Piece.empty hj1, ← List.getD_eq_getElem _ Piece.empty hj2]
  exact hcell

theorem Board.from_to_array (b : Board) (h : b.WF) :
    Board.from_array b.to_array = b := by
  obtain ⟨hlen, hrow⟩ := h
  have hgrid : (b.to_array).map (fun row => row.map Piece.ofVal) = b.grid := by
    unfold Board.to_array
    rw [List.map_map]
    have step : ∀ r ∈ List.range b.size,
        ((fun row => row.map Piece.ofVal) ∘ fun r =>
          (List.range b.size).map (fun c => ((b.grid.getD r []).getD c Piece.empty).val)) r
          = b.grid.getD r [] := by
      intro r hr
      rw [List.mem_range] at hr
      show ((List.range b.size).map
        (fun c => ((b.grid.getD r []).getD c Piece.empty).val)).map Piece.ofVal
          = b.grid.getD r []
      rw [List.map_map]
      have inner : ∀ c ∈ List.range b.size,
          (Piece.ofVal ∘ fun c => ((b.grid.getD r []).getD c Piece.empty).val) c
            = (b.grid.getD r []).getD c Piece.empty := by
        intro c hc
        show Piece.ofVal (((b.grid.getD r []).getD c Piece.empty).val) = _
        rw [Piece.ofVal_val]
      rw [List.map_congr_left inner]
      rw [show b.size = (b.grid.getD r []).length from (hrow r hr).symm]
      exact list_range_map_getD _ _
    rw [List.map_congr_left step]
    rw [show b.size = b.grid.length from hlen.symm]
    exact list_range_map_getD b.grid []
  refine Board.eq_of_parts _ _ ?_ hgrid
  simp [Board.from_array, Board.to_array]

theorem Board.set_all_size (b : Board) (l : List Position) (v : Piece) :
    (b.set_all l v).size = b.size := by
  induction l generalizing b with
  | nil => rfl
  | cons s t ih => simpa [Board.set_all, List.foldl_cons] using ih (b.set s v)

theorem Board.WF_set_all (b : Board) (l : List Position) (v : Piece) (h : b.WF) :
    (b.set_all l v).WF := by
  induction l generalizing b with
  | nil => exact h
  | cons s t ih => exact ih (b.set s v) (Board.WF_set b s v h)

theorem Board.in_bounds_set_all (b : Board) (l : List Position) (v : Piece) (q : Position) :
    (b.set_all l v).in_bounds q = b.in_bounds q := by
  simp [Board.in_bounds_iff, Board.in_bounds, Board.set_all_size]

theorem Board.get_set_all (b : Board) (l : List Position) (v : Piece) (q : Position)
    (hwf : b.WF) (hall : ∀ s ∈ l, b.in_bounds s = true) :
    (b.set_all l v).get q =
      if ∃ s ∈ l, s.cell_eq q then v else b.get q := by
  induction l generalizing b with
  | nil => simp [Board.set_all]
  | cons s t ih =>
    have step : (b.set_all (s :: t) v) = ((b.set s v).set_all t v) := rfl
    have hallt : ∀ x ∈ t, (b.set s v).in_bounds x = true := fun x hx => by
      rw [Board.in_bounds_set]; exact hall x (List.mem_cons_of_mem _ hx)
    rw [step, ih (b.set s v) (Board.WF_set b s v hwf) hallt]
    by_cases hts : ∃ x ∈ t, x.cell_eq q
    · rw [if_pos hts, if_pos]
      obtain ⟨x, hx, hcell⟩ := hts
      exact ⟨x, List.mem_cons_of_mem _ hx, hcell⟩
    · rw [if_neg hts]
      by_cases hsq : s.cell_eq q
      · rw [if_pos ⟨s, List.mem_cons_self s t, hsq⟩]
        rw [Board.get_congr_cell _ q s hsq.1.symm hsq.2.symm]
        exact Board.get_set_self b s v hwf (hall s (List.mem_cons_self s t))
      · have hnone : ¬ ∃ x ∈ s :: t, x.cell_eq q := by
          rintro ⟨x, hx, hcell⟩
          rcases List.mem_cons.mp hx with rfl | hx
          · exact hsq hcell
          · exact hts ⟨x, hx, hcell⟩
        rw [if_neg hnone]
        exact Board.get_set_ne b s q v (by
          by_contra hcon
          push_neg at hcon
          exact hsq ⟨hcon.1, hcon.2⟩)

theorem Board.mem_neighbors (b : Board) (p q : Position) (h : q ∈ b.neighbors p) :
    b.in_bounds q = true := by
  simp only [Board.neighbors, List.mem_filterMap] at h
  obtain ⟨d, _, hd⟩ := h
  by_cases hb : b.in_bounds ⟨p.row + d.1, p.col + d.2⟩
  · rw [if_pos hb] at hd
    cases hd
    exact hb
  · rw [if_neg hb] at hd
    cases hd

theorem floodAux_stones_mono (b : Board) (color : Piece) :
    ∀ (fuel : Nat) (stack visited stones libs : List Position) (q : Position),
      q ∈ stones → q ∈ (floodAux b color fuel stack visited stones libs).1 := by
  intro fuel
  induction fuel with
  | zero => intro stack visited stones libs q hq; simpa [floodAux] using hq
  | succ n ih =>
    intro stack visited stones libs q hq
    cases stack with
    | nil => simpa [floodAux] using hq
    | cons p rest =>
      rw [floodAux]
      by_cases hv : p ∈ visited
      · rw [if_pos hv]
        exact ih rest visited stones libs q hq
      · rw [if_neg hv]
        exact ih _ _ _ _ q (List.mem_cons_of_mem _ hq)

theorem floodAux_stones_spec (b : Board) (color : Piece) :
    ∀ (fuel : Nat) (stack visited stones libs : List Position),
      (∀ q ∈ stack, b.get q = color ∧ b.in_bounds q = true) →
      (∀ q ∈ stones, b.get q = color ∧ b.in_bounds q = true) →
      ∀ q ∈ (floodAux b color fuel stack visited stones libs).1,
        b.get q = color ∧ b.in_bounds q = true := by
  intro fuel
  induction fuel with
  | zero =>
    intro stack visited stones libs hst hsn q hq
    exact hsn q (by simpa [floodAux] using hq)
  | succ n ih =>
    intro stack visited stones libs hst hsn q hq
    cases stack with
    | nil => exact hsn q (by simpa [floodAux] using hq)
    | cons p rest =>
      rw [floodAux] at hq
      by_cases hv : p ∈ visited
      · rw [if_pos hv] at hq
        exact ih rest visited stones libs
          (fun r hr => hst r (List.mem_cons_of_mem _ hr)) hsn q hq
      · rw [if_neg hv] at hq
        refine ih _ _ _ _ ?_ ?_ q hq
        · intro r hr
          rcases List.mem_append.mp hr with hr | hr
          · have hr2 := List.mem_reverse.mp hr
            have hm := List.mem_filter.mp hr2
            have hprop := of_decide_eq_true hm.2
            exact ⟨hprop.1, Board.mem_neighbors b p r hm.1⟩
          · exact hst r (List.mem_cons_of_mem _ hr)
        · intro r hr
          rcases List.mem_cons.mp hr with rfl | hr
          · exact hst r (List.mem_cons_self _ _)
          · exact hsn r hr

theorem flood_stones_spec (b : Board) (start : Position) (hne : b.get start ≠ Piece.empty)
    (hin : b.in_bounds start = true) :
    ∀ q ∈ (flood_group_and_liberties b start).1,
      b.get q = b.get start ∧ b.in_bounds q = true := by
  intro q hq
  unfold flood_group_and_liberties at hq
  rw [if_neg hne] at hq
  exact floodAux_stones_spec b (b.get start) _ [start] [] [] []
    (fun r hr => by rcases List.mem_cons.mp hr with rfl | hr
                    · exact ⟨rfl, hin⟩
                    · cases hr)
    (fun r hr => by cases hr) q hq

theorem flood_start_mem (b : Board) (start : Position) (hne : b.get start ≠ Piece.empty) :
    start ∈ (flood_group_and_liberties b start).1 := by
  unfold flood_group_and_liberties
  rw [if_neg hne]
  have hf : b.size * b.size * 4 + 5 = (b.size * b.size * 4 + 4) + 1 := rfl
  rw [hf, floodAux]
  rw [if_neg (List.not_mem_nil start)]
  exact floodAux_stones_mono b (b.get start) _ _ _ _ _ start (List.mem_cons_self _ _)

theorem list_foldl_append_mem {α β : Type} (f : α → List β) :
    ∀ (l : List α) (init : List β) (x : β),
      (x ∈ l.foldl (fun acc a => acc ++ f a) init ↔ x ∈ init ∨ ∃ a ∈ l, x ∈ f a) := by
  intro l
  induction l with
  | nil => intro init x; simp
  | cons a t ih =>
    intro init x
    rw [List.foldl_cons, ih]
    rw [List.mem_append]
    constructor
    · rintro (⟨h | h⟩ | ⟨r, hr, hx⟩)
      · exact Or.inl h
      · exact Or.inr ⟨a, List.mem_cons_self _ _, h⟩
      · exact Or.inr ⟨r, List.mem_cons_of_mem _ hr, hx⟩
    · rintro (h | ⟨r, hr, hx⟩)
      · exact Or.inl (Or.inl h)
      · rcases List.mem_cons.mp hr with rfl | hr
        · exact Or.inl (Or.inr hx)
        · exact Or.inr ⟨r, hr, hx⟩

theorem Board.is_empty_iff (b : Board) (p : Position) :
    b.is_empty p = true ↔ b.get p = Piece.empty := by
  simp [Board.is_empty]

/-- C1 (code_bug evidence).  On a fresh recorded game, stepping the very
first move leaves exactly one keyframe, and that keyframe is the state
*after* event 0, not the initial state preceding it: the recorder hooks run
after `apply_move`, so `snapshots[0]` differs from the fresh initial
snapshot, violating the documented invariant `snapshots[i] = state after
events [0, i*k)` already at `i = 0`. -/
theorem recorder_keyframe_bug :
    GomokuGame.step_rec c1_machine0 c1_move = .ok c1_machine1 ∧
    c1_machine1.recorder.snapshots = [BaseGame.snapshot c1_machine1.core] ∧
    BaseGame.snapshot c1_machine1.core ≠ BaseGame.snapshot c1_machine0.core := by
  refine ⟨by decide, by decide, by decide⟩

/-- C2 (counterexample).  A pass by White on a fresh territory game — where
it is Black's turn — is *accepted* by `step` (the turn gate exempts passes
and `GoGame.is_legal` approves any pass), so the claim that a wrong-side
pass still fails is false. -/
theorem turn_gate_pass_counterexample :
    goFresh8.current = PlayerColor.black ∧
    (GoGame.step goFresh8 [] mvPassWhite).map
      (fun gh => (gh.1.consecutive_pass, gh.1.current)) =
      .ok (1, PlayerColor.white) := by
  refine ⟨by decide, by decide⟩

/-- C2 (amended).  The turn gate: a non-pass non-resign move of the wrong
color fails with `WrongTurn` in all three engines (on a game that is not
over); resign bypasses the gate, is approved by every engine's legality
predicate, and is accepted by `step` from either side; pass also bypasses
the gate, and the five-in-a-row and flip-capture engines reject every pass
through their legality predicate, but the territory engine accepts a pass
from either side, so a wrong-side pass succeeds there. -/
theorem turn_gate_amended :
    (∀ (g : GoCore) (h : List GoSnap) (m : Move), g.ended = false →
      m.player ≠ g.current → m.pass_move = false → m.resign = false →
      GoGame.step g h m = .error .wrongTurn) ∧
    (∀ (g : BaseCore) (h : List BaseSnap) (m : Move), g.ended = false →
      m.player ≠ g.current → m.pass_move = false → m.resign = false →
      GomokuGame.step g h m = .error .wrongTurn) ∧
    (∀ (g : BaseCore) (h : List BaseSnap) (m : Move), g.ended = false →
      m.player ≠ g.current → m.pass_move = false → m.resign = false →
      ReversiGame.step g h m = .error .wrongTurn) ∧
    (∀ (g : BaseCore) (m : Move), m.pass_move = true → m.resign = false →
      GomokuGame.is_legal g m = false) ∧
    (∀ (g : BaseCore) (m : Move), m.pass_move = true → m.resign = false →
      ReversiGame.is_legal g m = false) ∧
    (∀ (g : BaseCore) (h : List BaseSnap) (m : Move), g.ended = false →
      m.pass_move = true → m.resign = false →
      GomokuGame.step g h m = .error .illegalMove) ∧
    (∀ (g : BaseCore) (h : List BaseSnap) (m : Move), g.ended = false →
      m.pass_move = true → m.resign = false →
      ReversiGame.step g h m = .error .illegalMove) ∧
    (∀ (g : GoCore) (h : List GoSnap) (m : Move), g.ended = false →
      m.pass_move = true → m.resign = false →
      ∃ gh, GoGame.step g h m = .ok gh) ∧
    (∀ (g : GoCore) (m : Move), m.resign = true → GoGame.is_legal g m = true) ∧
    (∀ (g : BaseCore) (m : Move), m.resign = true → GomokuGame.is_legal g m = true) ∧
    (∀ (g : BaseCore) (m : Move), m.resign = true → ReversiGame.is_legal g m = true) ∧
    (∀ (g : GoCore) (h : List GoSnap) (m : Move), g.ended = false → m.resign = true →
      ∃ gh, GoGame.step g h m = .ok gh) ∧
    (∀ (g : BaseCore) (h : List BaseSnap) (m : Move), g.ended = false → m.resign = true →
      ∃ gh, GomokuGame.step g h m = .ok gh) ∧
    (∀ (g : BaseCore) (h : List BaseSnap) (m : Move), g.ended = false → m.resign = true →
      ∃ gh, ReversiGame.step g h m = .ok gh) := by
  refine ⟨?_, ?_, ?_, ?_, ?_, ?_, ?_, ?_, ?_, ?_, ?_, ?_, ?_, ?_⟩
  · intro g h m hend hne hpass hres
    simp [GoGame.step, hend, hne, hpass, hres]
  · intro g h m hend hne hpass hres
    simp [GomokuGame.step, hend, hne, hpass, hres]
  · intro g h m hend hne hpass hres
    simp [ReversiGame.step, hend, hne, hpass, hres]
  · intro g m hpass hres
    simp [GomokuGame.is_legal, hpass, hres]
  · intro g m hpass hres
    simp [ReversiGame.is_legal, hpass, hres]
  · intro g h m hend hpass hres
    simp [GomokuGame.step, GomokuGame.is_legal, hend, hpass, hres]
  · intro g h m hend hpass hres
    simp [ReversiGame.step, ReversiGame.is_legal, hend, hpass, hres]
  · intro g h m hend hpass hres
    have hleg : GoGame.is_legal g m = true := by
      simp [GoGame.is_legal, GoGame.is_legal_sim, hpass, hres]
    by_cases hcp : g.consecutive_pass + 1 ≥ 2
    · refine ⟨({ g with
          consecutive_pass := g.consecutive_pass + 1
          last_pos := none
          ended := true }, GoGame.snapshot g :: h), ?_⟩
      simp [GoGame.step, GoGame.apply_move, hend, hpass, hres, hleg, hcp,
        bind, Except.bind, pure, Except.pure]
    · refine ⟨({ g with
          consecutive_pass := g.consecutive_pass + 1
          last_pos := none
          current := g.current.other }, GoGame.snapshot g :: h), ?_⟩
      simp [GoGame.step, GoGame.apply_move, hend, hpass, hres, hleg, hcp,
        bind, Except.bind, pure, Except.pure]
  · intro g m hres
    simp [GoGame.is_legal, GoGame.is_legal_sim, hres]
  · intro g m hres
    simp [GomokuGame.is_legal, hres]
  · intro g m hres
    simp [ReversiGame.is_legal, hres]
  · intro g h m hend hres
    refine ⟨({ g with ended := true, winner := some m.player.other },
      GoGame.snapshot g :: h), ?_⟩
    simp [GoGame.step, GoGame.is_legal, GoGame.is_legal_sim, GoGame.apply_move,
      hend, hres, bind, Except.bind, pure, Except.pure]
  · intro g h m hend hres
    refine ⟨({ g with ended := true, winner := some m.player.other },
      BaseGame.snapshot g :: h), ?_⟩
    simp [GomokuGame.step, GomokuGame.is_legal, GomokuGame.apply_move,
      hend, hres, bind, Except.bind, pure, Except.pure]
  · intro g h m hend hres
    refine ⟨({ g with ended := true, winner := some m.player.other },
      BaseGame.snapshot g :: h), ?_⟩
    simp [ReversiGame.step, ReversiGame.is_legal, ReversiGame.apply_move,
      hend, hres, bind, Except.bind, pure, Except.pure]

/-- C2 (witness).  The amended gate behaviour at concrete inputs: a
wrong-color placement fails with `WrongTurn` in the territory engine, the
five-in-a-row engine rejects a wrong-side pass with `IllegalMove`, the
territory engine accepts a wrong-side pass, and resigns by the side *not*
to move are accepted in the territory and flip-capture engines. -/
theorem turn_gate_amended_witness :
    GoGame.step goFresh8 [] ⟨.white, some ⟨0, 0⟩, false, false⟩ = .error .wrongTurn ∧
    GomokuGame.step c3_fresh [] mvPassWhite = .error .illegalMove ∧
    (∃ gh, GoGame.step goFresh8 [] mvPassWhite = .ok gh) ∧
    (∃ gh, GoGame.step goFresh8 [] ⟨.white, none, false, true⟩ = .ok gh) ∧
    (∃ gh, ReversiGame.step reversiInit8 [] ⟨.white, none, false, true⟩ = .ok gh) := by
  refine ⟨turn_gate_amended.1 goFresh8 [] _ (by decide) (by decide) (by decide) (by decide),
    turn_gate_amended.2.2.2.2.2.1 c3_fresh [] mvPassWhite (by decide) (by decide) (by decide),
    turn_gate_amended.2.2.2.2.2.2.2.1 goFresh8 [] mvPassWhite
      (by decide) (by decide) (by decide),
    turn_gate_amended.2.2.2.2.2.2.2.2.2.2.2.1 goFresh8 [] _ (by decide) (by decide),
    turn_gate_amended.2.2.2.2.2.2.2.2.2.2.2.2.2 reversiInit8 [] _ (by decide) (by decide)⟩

/-- C7 (counterexample).  A second consecutive pass (White passes after a
Black pass) ends the game but does *not* switch the turn: `current` stays
White, while the claim asserts every pass switches the turn. -/
theorem go_pass_no_switch_counterexample :
    c7_state.current = PlayerColor.white ∧
    (GoGame.apply_move c7_state mvPassWhite).map
      (fun g => (g.current, g.ended, g.consecutive_pass, g.winner)) =
      .ok (PlayerColor.white, true, 2, none) := by
  refine ⟨by decide, by decide⟩

/-- C7 (amended).  On a non-ended territory game a pass increments the
consecutive-pass counter, clears the last position, and leaves board,
winner and capture counters unchanged; if this makes two consecutive passes
the game ends with the turn *unswitched* (and still no winner), otherwise
the game continues and the turn switches. -/
theorem go_pass_effect_amended (g : GoCore) (m : Move) (hend : g.ended = false)
    (hres : m.resign = false) (hpass : m.pass_move = true) :
    ∃ g2, GoGame.apply_move g m = .ok g2 ∧
      g2.consecutive_pass = g.consecutive_pass + 1 ∧
      g2.board = g.board ∧ g2.winner = g.winner ∧ g2.last_pos = none ∧
      g2.captured_black = g.captured_black ∧ g2.captured_white = g.captured_white ∧
      (g.consecutive_pass + 1 ≥ 2 → g2.ended = true ∧ g2.current = g.current) ∧
      (g.consecutive_pass + 1 < 2 → g2.ended = false ∧ g2.current = g.current.other) := by
  by_cases hcp : g.consecutive_pass + 1 ≥ 2
  · refine ⟨{ g with
        consecutive_pass := g.consecutive_pass + 1
        last_pos := none
        ended := true }, ?_⟩
    simp [GoGame.apply_move, hres, hpass, hcp]
  · refine ⟨{ g with
        consecutive_pass := g.consecutive_pass + 1
        last_pos := none
        current := g.current.other }, ?_⟩
    simp [GoGame.apply_move, hres, hpass, hcp, hend]

/-- C7 (witness).  The amended pass effect applied to a fresh game: Black's
first pass counts one pass, keeps the game running and hands the turn to
White. -/
theorem go_pass_effect_witness :
    goFresh8.ended = false ∧
    ∃ g2, GoGame.apply_move goFresh8 mvPassBlack = .ok g2 ∧
      g2.consecutive_pass = goFresh8.consecutive_pass + 1 ∧
      g2.board = goFresh8.board ∧ g2.winner = goFresh8.winner ∧ g2.last_pos = none ∧
      g2.captured_black = goFresh8.captured_black ∧
      g2.captured_white = goFresh8.captured_white ∧
      (goFresh8.consecutive_pass + 1 ≥ 2 → g2.ended = true ∧ g2.current = goFresh8.current) ∧
      (goFresh8.consecutive_pass + 1 < 2 → g2.ended = false ∧
        g2.current = goFresh8.current.other) := by
  exact ⟨by decide, go_pass_effect_amended goFresh8 mvPassBlack (by decide) (by decide) (by decide)⟩

/-- C9 (counterexample).  From the coded initial position ((3,3) and (4,4)
White, (3,4) and (4,3) Black), Black's move at (2,4) flips nothing in any
direction — (3,4) below it is already Black — so `step` rejects it with
`IllegalMove`; the claimed scenario is false on this code. -/
theorem reversi_opening_counterexample :
    ReversiGame.step reversiInit8 [] c9_move_claim = .error .illegalMove := by
  decide

/-- C9 (amended).  The actual opening of that shape: on the size-8 initial
position Black plays (2,3), which is accepted, flips (3,3) to Black, leaves
4 Black discs (and 1 White) on the board, and makes `current` White. -/
theorem reversi_opening_amended :
    (stepResultBase (ReversiGame.step reversiInit8 [] c9_move_real)).map
      (fun c => (c.board.get ⟨3, 3⟩, c.current, ReversiGame.count_discs c.board)) =
      some (Piece.black, PlayerColor.white, (4, 1)) := by
  decide

/-- C10 (counterexample).  A positionless non-pass non-resign move by the
side *not* to move fails with `WrongTurn`, not `IllegalMove`: the turn gate
fires before the legality predicate is consulted. -/
theorem positionless_move_counterexample :
    GoGame.step goFresh8 [] c10_move = .error .wrongTurn := by
  decide

/-- C10 (amended).  A `Move` carrying no position that is neither pass nor
resign is rejected by `is_legal` of all three engines in every state; `step`
therefore never accepts it — it fails with `IllegalMove` whenever the game
is not over and the move's color matches `current`, and with `GameOver` or
`WrongTurn` respectively in the remaining cases. -/
theorem positionless_move_amended :
    (∀ (g : GoCore) (m : Move), m.pass_move = false → m.resign = false →
      m.pos = none → GoGame.is_legal g m = false) ∧
    (∀ (g : BaseCore) (m : Move), m.pass_move = false → m.resign = false →
      m.pos = none → GomokuGame.is_legal g m = false) ∧
    (∀ (g : BaseCore) (m : Move), m.pass_move = false → m.resign = false →
      m.pos = none → ReversiGame.is_legal g m = false) ∧
    (∀ (g : GoCore) (h : List GoSnap) (m : Move), m.pass_move = false →
      m.resign = false → m.pos = none →
      (∃ e, GoGame.step g h m = .error e) ∧
      (g.ended = true → GoGame.step g h m = .error .gameOver) ∧
      (g.ended = false → m.player ≠ g.current →
        GoGame.step g h m = .error .wrongTurn) ∧
      (g.ended = false → m.player = g.current →
        GoGame.step g h m = .error .illegalMove)) ∧
    (∀ (g : BaseCore) (h : List BaseSnap) (m : Move), m.pass_move = false →
      m.resign = false → m.pos = none →
      (∃ e, GomokuGame.step g h m = .error e) ∧
      (g.ended = true → GomokuGame.step g h m = .error .gameOver) ∧
      (g.ended = false → m.player ≠ g.current →
        GomokuGame.step g h m = .error .wrongTurn) ∧
      (g.ended = false → m.player = g.current →
        GomokuGame.step g h m = .error .illegalMove)) ∧
    (∀ (g : BaseCore) (h : List BaseSnap) (m : Move), m.pass_move = false →
      m.resign = false → m.pos = none →
      (∃ e, ReversiGame.step g h m = .error e) ∧
      (g.ended = true → ReversiGame.step g h m = .error .gameOver) ∧
      (g.ended = false → m.player ≠ g.current →
        ReversiGame.step g h m = .error .wrongTurn) ∧
      (g.ended = false → m.player = g.current →
        ReversiGame.step g h m = .error .illegalMove)) := by
  have hgo : ∀ (g : GoCore) (m : Move), m.pass_move = false → m.resign = false →
      m.pos = none → GoGame.is_legal g m = false := by
    intro g m hpass hres hpos
    simp [GoGame.is_legal, GoGame.is_legal_sim, hpass, hres, hpos]
  have hgm : ∀ (g : BaseCore) (m : Move), m.pass_move = false → m.resign = false →
      m.pos = none → GomokuGame.is_legal g m = false := by
    intro g m hpass hres hpos
    simp [GomokuGame.is_legal, hpass, hres, hpos]
  have hrv : ∀ (g : BaseCore) (m : Move), m.pass_move = false → m.resign = false →
      m.pos = none → ReversiGame.is_legal g m = false := by
    intro g m hpass hres hpos
    simp [ReversiGame.is_legal, hpass, hres, hpos]
  refine ⟨hgo, hgm, hrv, ?_, ?_, ?_⟩
  · intro g h m hpass hres hpos
    refine ⟨?_, ?_, ?_, ?_⟩
    · by_cases hend : g.ended
      · exact ⟨.gameOver, by simp [GoGame.step, hend]⟩
      · by_cases hcur : m.player = g.current
        · exact ⟨.illegalMove, by
            simp [GoGame.step, hend, hcur, hpass, hres, hgo g m hpass hres hpos]⟩
        · exact ⟨.wrongTurn, by simp [GoGame.step, hend, hcur, hpass, hres]⟩
    · intro hend
      simp [GoGame.step, hend]
    · intro hend hcur
      simp [GoGame.step, hend, hcur, hpass, hres]
    · intro hend hcur
      simp [GoGame.step, hend, hcur, hpass, hres, hgo g m hpass hres hpos]
  · intro g h m hpass hres hpos
    refine ⟨?_, ?_, ?_, ?_⟩
    · by_cases hend : g.ended
      · exact ⟨.gameOver, by simp [GomokuGame.step, hend]⟩
      · by_cases hcur : m.player = g.current
        · exact ⟨.illegalMove, by
            simp [GomokuGame.step, hend, hcur, hpass, hres, hgm g m hpass hres hpos]⟩
        · exact ⟨.wrongTurn, by simp [GomokuGame.step, hend, hcur, hpass, hres]⟩
    · intro hend
      simp [GomokuGame.step, hend]
    · intro hend hcur
      simp [GomokuGame.step, hend, hcur, hpass, hres]
    · intro hend hcur
      simp [GomokuGame.step, hend, hcur, hpass, hres, hgm g m hpass hres hpos]
  · intro g h m hpass hres hpos
    refine ⟨?_, ?_, ?_, ?_⟩
    · by_cases hend : g.ended
      · exact ⟨.gameOver, by simp [ReversiGame.step, hend]⟩
      · by_cases hcur : m.player = g.current
        · exact ⟨.illegalMove, by
            simp [ReversiGame.step, hend, hcur, hpass, hres, hrv g m hpass hres hpos]⟩
        · exact ⟨.wrongTurn, by simp [ReversiGame.step, hend, hcur, hpass, hres]⟩
    · intro hend
      simp [ReversiGame.step, hend]
    · intro hend hcur
      simp [ReversiGame.step, hend, hcur, hpass, hres]
    · intro hend hcur
      simp [ReversiGame.step, hend, hcur, hpass, hres, hrv g m hpass hres hpos]

/-- C10 (witness).  The amended statement at concrete inputs: a positionless
move by Black (the side to move) on a fresh territory game is illegal and
`step` answers `IllegalMove`; the same move on an ended five-in-a-row game
answers `GameOver`; and a positionless move by White (not to move) on the
fresh territory game answers `WrongTurn`. -/
theorem positionless_move_witness :
    GoGame.is_legal goFresh8 ⟨.black, none, false, false⟩ = false ∧
    GoGame.step goFresh8 [] ⟨.black, none, false, false⟩ = .error .illegalMove ∧
    GomokuGame.step c5_state [] ⟨.black, none, false, false⟩ = .error .gameOver ∧
    GoGame.step goFresh8 [] c10_move = .error .wrongTurn := by
  refine ⟨positionless_move_amended.1 goFresh8 _ (by decide) (by decide) (by decide),
    (positionless_move_amended.2.2.2.1 goFresh8 [] _ (by decide) (by decide)
      (by decide)).2.2.2 (by decide) (by decide),
    (positionless_move_amended.2.2.2.2.1 c5_state [] _ (by decide) (by decide)
      (by decide)).2.1 (by decide),
    (positionless_move_amended.2.2.2.1 goFresh8 [] c10_move (by decide) (by decide)
      (by decide)).2.2.1 (by decide) (by decide)⟩

/-- C5 (counterexample).  A move rejected by the legality predicate (a pass,
never legal in the five-in-a-row engine) on an *ended* game makes `step`
fail with `GameOver`, not `IllegalMove` as the claim states for every game
state. -/
theorem illegal_move_gameover_counterexample :
    GomokuGame.is_legal c5_state mvPassBlack = false ∧
    GomokuGame.step c5_state [] mvPassBlack = .error .gameOver := by
  refine ⟨by decide, by decide⟩

theorem GoGame.go_restore_snapshot (g : GoCore) (h : g.board.WF) :
    GoGame.restore (GoGame.snapshot g) = g := by
  rcases g with ⟨b, cur, e, w, lp, cb, cw, cp, k⟩
  rcases w with _ | w <;> rcases lp with _ | lp <;>
    simp [GoGame.restore, GoGame.snapshot, Board.from_to_array _ h,
      PlayerColor.ofVal_cancel, PlayerColor.val_ne_zero]

theorem BaseGame.restore_snapshot (g : BaseCore) (h : g.board.WF) :
    BaseGame.restore (BaseGame.snapshot g) = g := by
  rcases g with ⟨b, cur, e, w, lp⟩
  rcases w with _ | w <;> rcases lp with _ | lp <;>
    simp [BaseGame.restore, BaseGame.snapshot, Board.from_to_array _ h,
      PlayerColor.ofVal_cancel, PlayerColor.val_ne_zero]

/-- C3.  Undo round-trip law: in each of the three engines, whenever `step`
accepts a move from a state with a well-formed board (every state the
engines can reach has one), `undo` immediately afterwards returns `true`
and restores exactly the pre-move core state — board contents, current
color, ended flag, winner, last position and the ruleset-specific counters
(captures, consecutive passes, komi for the territory engine) — together
with the original history. -/
theorem undo_roundtrip :
    (∀ (g : GoCore) (hist : List GoSnap) (m : Move) (g2 : GoCore)
      (h2 : List GoSnap), g.board.WF → GoGame.step g hist m = .ok (g2, h2) →
      GoGame.undo g2 h2 = (true, g, hist)) ∧
    (∀ (g : BaseCore) (hist : List BaseSnap) (m : Move) (g2 : BaseCore)
      (h2 : List BaseSnap), g.board.WF → GomokuGame.step g hist m = .ok (g2, h2) →
      GomokuGame.undo g2 h2 = (true, g, hist)) ∧
    (∀ (g : BaseCore) (hist : List BaseSnap) (m : Move) (g2 : BaseCore)
      (h2 : List BaseSnap), g.board.WF → ReversiGame.step g hist m = .ok (g2, h2) →
      ReversiGame.undo g2 h2 = (true, g, hist)) := by
  refine ⟨?_, ?_, ?_⟩
  · intro g hist m g2 h2 hwf hstep
    unfold GoGame.step at hstep
    split_ifs at hstep
    cases happ : GoGame.apply_move g m with
    | error e => rw [happ] at hstep; simp [bind, Except.bind] at hstep
    | ok g3 =>
      rw [happ] at hstep
      simp only [bind, Except.bind, pure, Except.pure, Except.ok.injEq,
        Prod.mk.injEq] at hstep
      obtain ⟨h1, hh⟩ := hstep
      rw [← hh]
      simp [GoGame.undo, GoGame.go_restore_snapshot g hwf]
  · intro g hist m g2 h2 hwf hstep
    unfold GomokuGame.step at hstep
    split_ifs at hstep
    cases happ : GomokuGame.apply_move g m with
    | error e => rw [happ] at hstep; simp [bind, Except.bind] at hstep
    | ok g3 =>
      rw [happ] at hstep
      simp only [bind, Except.bind, pure, Except.pure, Except.ok.injEq,
        Prod.mk.injEq] at hstep
      obtain ⟨h1, hh⟩ := hstep
      rw [← hh]
      simp [GomokuGame.undo, BaseGame.restore_snapshot g hwf]
  · intro g hist m g2 h2 hwf hstep
    unfold ReversiGame.step at hstep
    split_ifs at hstep
    cases happ : ReversiGame.apply_move g m with
    | error e => rw [happ] at hstep; simp [bind, Except.bind] at hstep
    | ok g3 =>
      rw [happ] at hstep
      simp only [bind, Except.bind, pure, Except.pure, Except.ok.injEq,
        Prod.mk.injEq] at hstep
      obtain ⟨h1, hh⟩ := hstep
      rw [← hh]
      simp [ReversiGame.undo, BaseGame.restore_snapshot g hwf]

/-- C3 (witness).  The round trip at a concrete input: stepping Black (0,0)
on a fresh five-in-a-row game and undoing restores the fresh state exactly. -/
theorem undo_roundtrip_witness :
    c3_fresh.board.WF ∧
    GomokuGame.step c3_fresh [] c3_move = .ok c3_stepped ∧
    GomokuGame.undo c3_stepped.1 c3_stepped.2 = (true, c3_fresh, []) := by
  refine ⟨by decide, by decide,
    undo_roundtrip.2.1 c3_fresh [] c3_move c3_stepped.1 c3_stepped.2 (by decide) (by decide)⟩

theorem GoGame.mem_to_clear (b1 : Board) (p : Position) (opp : Piece) (x : Position) :
    x ∈ GoGame.to_clear b1 p opp ↔
      ∃ nb ∈ GoGame.adj_opp b1 p opp,
        (flood_group_and_liberties b1 nb).2.isEmpty = true ∧
        x ∈ (flood_group_and_liberties b1 nb).1 := by
  unfold GoGame.to_clear
  have hfun : (fun (acc : List Position) (nb : Position) =>
      let sl := flood_group_and_liberties b1 nb
      if sl.2.isEmpty then acc ++ sl.1 else acc) =
      (fun acc nb => acc ++
        (if (flood_group_and_liberties b1 nb).2.isEmpty then
          (flood_group_and_liberties b1 nb).1 else [])) := by
    funext acc nb
    by_cases hc : (flood_group_and_liberties b1 nb).2.isEmpty <;> simp [hc]
  rw [hfun, list_foldl_append_mem]
  constructor
  · rintro (h | ⟨nb, hnb, hx⟩)
    · cases h
    · by_cases hc : (flood_group_and_liberties b1 nb).2.isEmpty
      · rw [if_pos hc] at hx
        exact ⟨nb, hnb, hc, hx⟩
      · rw [if_neg hc] at hx
        cases hx
  · rintro ⟨nb, hnb, hc, hx⟩
    exact Or.inr ⟨nb, hnb, by rw [if_pos hc]; exact hx⟩

theorem GoGame.mem_adj_opp (b1 : Board) (p : Position) (opp : Piece) (nb : Position) :
    nb ∈ GoGame.adj_opp b1 p opp ↔ nb ∈ b1.neighbors p ∧ b1.get nb = opp := by
  unfold GoGame.adj_opp
  rw [List.mem_filter]
  simp

theorem GoGame.to_clear_ne_nil_iff (b1 : Board) (p : Position) (opp : Piece)
    (hopp : opp ≠ Piece.empty) :
    GoGame.to_clear b1 p opp ≠ [] ↔ GoGame.captures_opponent b1 p opp := by
  rw [Ne, List.eq_nil_iff_forall_not_mem]
  push_neg
  constructor
  · rintro ⟨x, hx⟩
    rw [GoGame.mem_to_clear] at hx
    obtain ⟨nb, hnb, hemp, hxs⟩ := hx
    rw [GoGame.mem_adj_opp] at hnb
    exact ⟨nb, hnb.1, hnb.2, by rwa [← List.isEmpty_iff]⟩
  · rintro ⟨nb, hnb, hget, hlib⟩
    refine ⟨nb, ?_⟩
    rw [GoGame.mem_to_clear]
    refine ⟨nb, (GoGame.mem_adj_opp b1 p opp nb).mpr ⟨hnb, hget⟩,
      by rw [List.isEmpty_iff]; exact hlib, ?_⟩
    exact flood_start_mem b1 nb (by rw [hget]; exact hopp)

theorem GoGame.opp_piece_ne_empty (x : PlayerColor) :
    GoGame.opp_piece (Piece.from_player x) ≠ Piece.empty := by
  cases x <;> simp [Piece.from_player, GoGame.opp_piece]

theorem GoGame.opp_piece_ne_self (x : PlayerColor) :
    GoGame.opp_piece (Piece.from_player x) ≠ Piece.from_player x := by
  cases x <;> simp [Piece.from_player, GoGame.opp_piece]

/-- C4.  Territory-game suicide rule: for a placement on an empty in-bounds
cell, writing `b1` for the board with the stone placed and `b2` for `b1`
with every zero-liberty adjacent opposing group removed — if the placed
stone's group on `b2` has zero liberties and no opposing stone is captured,
`is_legal` rejects the move; if at least one opposing stone is captured
(some adjacent opposing group on `b1` has zero liberties), `is_legal`
accepts it even when the placed group has zero liberties. -/
theorem go_suicide_rule (g : GoCore) (m : Move) (p : Position)
    (hres : m.resign = false) (hpass : m.pass_move = false) (hpos : m.pos = some p)
    (hin : g.board.in_bounds p = true) (hemp : g.board.is_empty p = true) :
    ((flood_group_and_liberties
        ((g.board.set p (Piece.from_player m.player)).set_all
          (GoGame.to_clear (g.board.set p (Piece.from_player m.player)) p
            (GoGame.opp_piece (Piece.from_player m.player))) Piece.empty) p).2 = [] ∧
      ¬ GoGame.captures_opponent (g.board.set p (Piece.from_player m.player)) p
          (GoGame.opp_piece (Piece.from_player m.player)) →
      GoGame.is_legal g m = false) ∧
    (GoGame.captures_opponent (g.board.set p (Piece.from_player m.player)) p
        (GoGame.opp_piece (Piece.from_player m.player)) →
      GoGame.is_legal g m = true) := by
  have hunfold : GoGame.is_legal g m =
      (decide ((flood_group_and_liberties
          ((g.board.set p (Piece.from_player m.player)).set_all
            (GoGame.to_clear (g.board.set p (Piece.from_player m.player)) p
              (GoGame.opp_piece (Piece.from_player m.player))) Piece.empty) p).2.length > 0) ||
        decide ((GoGame.to_clear (g.board.set p (Piece.from_player m.player)) p
          (GoGame.opp_piece (Piece.from_player m.player))).length > 0)) := by
    unfold GoGame.is_legal GoGame.is_legal_sim
    rw [hres, hpass, hpos]
    simp [hin, hemp]
  constructor
  · rintro ⟨hlib, hnc⟩
    rw [← GoGame.to_clear_ne_nil_iff _ _ _
      (GoGame.opp_piece_ne_empty m.player), not_not] at hnc
    rw [hunfold, hlib, hnc]
    simp
  · intro hc
    rw [← GoGame.to_clear_ne_nil_iff _ _ _
      (GoGame.opp_piece_ne_empty m.player)] at hc
    rw [hunfold]
    have : (GoGame.to_clear (g.board.set p (Piece.from_player m.player)) p
        (GoGame.opp_piece (Piece.from_player m.player))).length > 0 :=
      List.length_pos.mpr hc
    simp [this]

/-- C4 (witness).  The suicide case at a concrete input: Black playing the
corner (0,0) next to White stones on (0,1) and (1,0) captures nothing and
leaves its own group without liberties, so `is_legal` rejects it. -/
theorem go_suicide_rule_witness :
    (flood_group_and_liberties
        ((c4_state.board.set ⟨0, 0⟩ (Piece.from_player PlayerColor.black)).set_all
          (GoGame.to_clear (c4_state.board.set ⟨0, 0⟩ (Piece.from_player PlayerColor.black))
            ⟨0, 0⟩ (GoGame.opp_piece (Piece.from_player PlayerColor.black))) Piece.empty)
        ⟨0, 0⟩).2 = [] ∧
    ¬ GoGame.captures_opponent
      (c4_state.board.set ⟨0, 0⟩ (Piece.from_player PlayerColor.black)) ⟨0, 0⟩
      (GoGame.opp_piece (Piece.from_player PlayerColor.black)) ∧
    GoGame.is_legal c4_state c4_move = false := by
  refine ⟨by decide, by decide, ?_⟩
  exact (go_suicide_rule c4_state c4_move ⟨0, 0⟩ (by decide) (by decide) (by decide)
    (by decide) (by decide)).1 ⟨by decide, by decide⟩

theorem GoGame.to_clear_spec (b1 : Board) (p : Position) (opp : Piece)
    (hopp : opp ≠ Piece.empty) :
    ∀ s ∈ GoGame.to_clear b1 p opp, b1.get s = opp ∧ b1.in_bounds s = true := by
  intro s hs
  rw [GoGame.mem_to_clear] at hs
  obtain ⟨nb, hnb, hlib, hstone⟩ := hs
  rw [GoGame.mem_adj_opp] at hnb
  have := flood_stones_spec b1 nb (by rw [hnb.2]; exact hopp)
    (Board.mem_neighbors b1 p nb hnb.1) s hstone
  rw [hnb.2] at this
  exact this

theorem go_sim_reverts (g : GoCore) (m : Move) (hwf : g.board.WF) :
    (GoGame.is_legal_sim g m).2 = g.board := by
  unfold GoGame.is_legal_sim
  by_cases hres : m.resign = true
  · simp [hres]
  by_cases hpass : m.pass_move = true
  · simp [hres, hpass]
  rw [Bool.not_eq_true] at hres hpass
  cases hpos : m.pos with
  | none => simp [hres, hpass]
  | some p =>
    by_cases hin : g.board.in_bounds p = true
    case neg => simp [hres, hpass, hin]
    by_cases hemp : g.board.is_empty p = true
    case neg => simp [hres, hpass, hin, hemp]
    simp only [hres, hpass, hin, hemp, Bool.not_true, Bool.false_eq_true, if_false,
      if_true]
    clear hpos
    set b0 := g.board with hb0
    set piece := Piece.from_player m.player with hpiece
    set b1 := b0.set p piece with hb1
    set opp := GoGame.opp_piece piece with hopp
    set tc := GoGame.to_clear b1 p opp with htc
    set b2 := b1.set_all tc Piece.empty with hb2
    set b3 := b2.set p Piece.empty with hb3
    have hget0 : b0.get p = Piece.empty := (Board.is_empty_iff b0 p).mp hemp
    have hopp_ne : opp ≠ Piece.empty := GoGame.opp_piece_ne_empty m.player
    have hopp_ne_piece : opp ≠ piece := GoGame.opp_piece_ne_self m.player
    have htc_spec : ∀ s ∈ tc, b1.get s = opp ∧ b1.in_bounds s = true :=
      GoGame.to_clear_spec b1 p opp hopp_ne
    have hb1wf : b1.WF := Board.WF_set b0 p piece hwf
    have hb2wf : b2.WF := Board.WF_set_all b1 tc Piece.empty hb1wf
    have hb3wf : b3.WF := Board.WF_set b2 p Piece.empty hb2wf
    have hb4wf : (b3.set_all tc opp).WF := Board.WF_set_all b3 tc opp hb3wf
    have hs1 : b1.size = b0.size := rfl
    have hs2 : b2.size = b0.size := by rw [Board.set_all_size]; exact hs1
    have hs3 : b3.size = b0.size := hs2
    have hs4 : (b3.set_all tc opp).size = b0.size := by
      rw [Board.set_all_size]; exact hs3
    have hinb1 : ∀ q : Position, b1.in_bounds q = b0.in_bounds q := fun q => rfl
    have hinb2 : ∀ q : Position, b2.in_bounds q = b0.in_bounds q := fun q => by
      rw [hb2, Board.in_bounds_set_all]; exact hinb1 q
    have hinb3 : ∀ q : Position, b3.in_bounds q = b0.in_bounds q := fun q => hinb2 q
    have hb1p : b1.get p = piece := Board.get_set_self b0 p piece hwf hin
    have htc_b3 : ∀ s ∈ tc, b3.in_bounds s = true := fun s hs => by
      rw [hinb3 s, ← hinb1 s]; exact (htc_spec s hs).2
    apply Board.ext_get _ _ hs4 hb4wf hwf
    intro r c hr hc
    rw [hs4] at hr hc
    set q : Position := ⟨(r : Int), (c : Int)⟩ with hq
    have hq_in : b0.in_bounds q = true := by
      rw [hq, Board.in_bounds_iff]
      dsimp only
      omega
    rw [Board.get_set_all b3 tc opp q hb3wf htc_b3]
    by_cases hmem : ∃ s ∈ tc, s.cell_eq q
    · rw [if_pos hmem]
      obtain ⟨s, hs, hcell⟩ := hmem
      have hq_opp : b1.get q = opp := by
        rw [← Board.get_congr_cell b1 s q hcell.1 hcell.2]
        exact (htc_spec s hs).1
      have hpq : ¬ p.cell_eq q := by
        intro hpq
        rw [← Board.get_congr_cell b1 p q hpq.1 hpq.2, hb1p] at hq_opp
        exact hopp_ne_piece hq_opp.symm
      have : b1.get q = b0.get q := by
        rw [hb1]
        exact Board.get_set_ne b0 p q piece (by
          by_contra hcon
          push_neg at hcon
          exact hpq ⟨hcon.1, hcon.2⟩)
      rw [← this, hq_opp]
    · rw [if_neg hmem]
      by_cases hpq : p.cell_eq q
      · have h3 : b3.get q = Piece.empty := by
          rw [← Board.get_congr_cell b3 p q hpq.1 hpq.2, hb3]
          exact Board.get_set_self b2 p Piece.empty hb2wf (by rw [hinb2 p]; exact hin)
        have h0 : b0.get q = Piece.empty := by
          rw [← Board.get_congr_cell b0 p q hpq.1 hpq.2]
          exact hget0
        rw [h3, h0]
      · have hcn : p.row.toNat ≠ q.row.toNat ∨ p.col.toNat ≠ q.col.toNat := by
          by_contra hcon
          push_neg at hcon
          exact hpq ⟨hcon.1, hcon.2⟩
        rw [hb3, Board.get_set_ne b2 p q Piece.empty hcn]
        rw [hb2, Board.get_set_all b1 tc Piece.empty q hb1wf
          (fun s hs => (htc_spec s hs).2), if_neg hmem]
        rw [hb1, Board.get_set_ne b0 p q piece hcn]

/-- C5 (amended).  Illegal-move atomicity: whenever the engine's legality
predicate rejects a move, `step` fails — with `IllegalMove` when the game
is not over and the move passes the turn gate (color matches, or the move
is a pass or resign), and with `GameOver`/`WrongTurn` in the remaining
cases — and in the pure state-passing model no rejected move produces a new
state.  Moreover the territory engine's legality simulation fully reverts
the board: for every state with a well-formed board and every move, the
board returned by the simulate-and-revert `is_legal` equals the input board
(the placed stone is removed and every temporarily captured stone is
restored). -/
theorem illegal_move_atomicity_amended :
    (∀ (g : GoCore) (h : List GoSnap) (m : Move), GoGame.is_legal g m = false →
      (∃ e, GoGame.step g h m = .error e) ∧
      (g.ended = true → GoGame.step g h m = .error .gameOver) ∧
      (g.ended = false → m.player ≠ g.current → m.pass_move = false →
        m.resign = false → GoGame.step g h m = .error .wrongTurn) ∧
      (g.ended = false →
        (m.player = g.current ∨ m.pass_move = true ∨ m.resign = true) →
        GoGame.step g h m = .error .illegalMove)) ∧
    (∀ (g : BaseCore) (h : List BaseSnap) (m : Move),
      GomokuGame.is_legal g m = false →
      (∃ e, GomokuGame.step g h m = .error e) ∧
      (g.ended = true → GomokuGame.step g h m = .error .gameOver) ∧
      (g.ended = false → m.player ≠ g.current → m.pass_move = false →
        m.resign = false → GomokuGame.step g h m = .error .wrongTurn) ∧
      (g.ended = false →
        (m.player = g.current ∨ m.pass_move = true ∨ m.resign = true) →
        GomokuGame.step g h m = .error .illegalMove)) ∧
    (∀ (g : BaseCore) (h : List BaseSnap) (m : Move),
      ReversiGame.is_legal g m = false →
      (∃ e, ReversiGame.step g h m = .error e) ∧
      (g.ended = true → ReversiGame.step g h m = .error .gameOver) ∧
      (g.ended = false → m.player ≠ g.current → m.pass_move = false →
        m.resign = false → ReversiGame.step g h m = .error .wrongTurn) ∧
      (g.ended = false →
        (m.player = g.current ∨ m.pass_move = true ∨ m.resign = true) →
        ReversiGame.step g h m = .error .illegalMove)) ∧
    (∀ (g : GoCore) (m : Move), g.board.WF →
      (GoGame.is_legal_sim g m).2 = g.board) := by
  refine ⟨?_, ?_, ?_, go_sim_reverts⟩
  · intro g h m hleg
    refine ⟨?_, ?_, ?_, ?_⟩
    · by_cases hend : g.ended
      · exact ⟨.gameOver, by simp [GoGame.step, hend]⟩
      · by_cases hgate : m.player ≠ g.current ∧ m.resign = false ∧ m.pass_move = false
        · exact ⟨.wrongTurn, by simp [GoGame.step, hend, hgate]⟩
        · exact ⟨.illegalMove, by simp [GoGame.step, hend, hgate, hleg]⟩
    · intro hend
      simp [GoGame.step, hend]
    · intro hend hne hpass hres
      simp [GoGame.step, hend, hne, hpass, hres]
    · intro hend hd
      have hgate : ¬ (m.player ≠ g.current ∧ m.resign = false ∧ m.pass_move = false) := by
        rcases hd with hcur | hp | hr
        · exact fun hc => hc.1 hcur
        · exact fun hc => by rw [hp] at hc; cases hc.2.2
        · exact fun hc => by rw [hr] at hc; cases hc.2.1
      simp [GoGame.step, hend, hgate, hleg]
  · intro g h m hleg
    refine ⟨?_, ?_, ?_, ?_⟩
    · by_cases hend : g.ended
      · exact ⟨.gameOver, by simp [GomokuGame.step, hend]⟩
      · by_cases hgate : m.player ≠ g.current ∧ m.resign = false ∧ m.pass_move = false
        · exact ⟨.wrongTurn, by simp [GomokuGame.step, hend, hgate]⟩
        · exact ⟨.illegalMove, by simp [GomokuGame.step, hend, hgate, hleg]⟩
    · intro hend
      simp [GomokuGame.step, hend]
    · intro hend hne hpass hres
      simp [GomokuGame.step, hend, hne, hpass, hres]
    · intro hend hd
      have hgate : ¬ (m.player ≠ g.current ∧ m.resign = false ∧ m.pass_move = false) := by
        rcases hd with hcur | hp | hr
        · exact fun hc => hc.1 hcur
        · exact fun hc => by rw [hp] at hc; cases hc.2.2
        · exact fun hc => by rw [hr] at hc; cases hc.2.1
      simp [GomokuGame.step, hend, hgate, hleg]
  · intro g h m hleg
    refine ⟨?_, ?_, ?_, ?_⟩
    · by_cases hend : g.ended
      · exact ⟨.gameOver, by simp [ReversiGame.step, hend]⟩
      · by_cases hgate : m.player ≠ g.current ∧ m.resign = false ∧ m.pass_move = false
        · exact ⟨.wrongTurn, by simp [ReversiGame.step, hend, hgate]⟩
        · exact ⟨.illegalMove, by simp [ReversiGame.step, hend, hgate, hleg]⟩
    · intro hend
      simp [ReversiGame.step, hend]
    · intro hend hne hpass hres
      simp [ReversiGame.step, hend, hne, hpass, hres]
    · intro hend hd
      have hgate : ¬ (m.player ≠ g.current ∧ m.resign = false ∧ m.pass_move = false) := by
        rcases hd with hcur | hp | hr
        · exact fun hc => hc.1 hcur
        · exact fun hc => by rw [hp] at hc; cases hc.2.2
        · exact fun hc => by rw [hr] at hc; cases hc.2.1
      simp [ReversiGame.step, hend, hgate, hleg]

/-- C5 (witness).  At concrete inputs: Black playing the occupied cell (0,1)
is rejected with `IllegalMove`; a positionless rejected move on an ended
territory game gets `GameOver`; White (not to move) playing that occupied
cell gets `WrongTurn`; and on a board where the legality probe of (0,0)
temporarily captures the walled-in White stone, the simulation hands back
exactly the original board. -/
theorem illegal_move_atomicity_witness :
    GoGame.is_legal c4_state c5_occ_move = false ∧
    GoGame.step c4_state [] c5_occ_move = .error .illegalMove ∧
    GoGame.step goEnded8 [] ⟨.black, none, false, false⟩ = .error .gameOver ∧
    GoGame.step c4_state [] c5_wrong_move = .error .wrongTurn ∧
    GoGame.is_legal c5w_state c5w_move = true ∧
    (GoGame.is_legal_sim c5w_state c5w_move).2 = c5w_state.board := by
  refine ⟨by decide,
    (illegal_move_atomicity_amended.1 c4_state [] c5_occ_move (by decide)).2.2.2
      (by decide) (Or.inl (by decide)),
    (illegal_move_atomicity_amended.1 goEnded8 [] _ (by decide)).2.1 (by decide),
    (illegal_move_atomicity_amended.1 c4_state [] c5_wrong_move (by decide)).2.2.1
      (by decide) (by decide) (by decide) (by decide),
    by decide,
    illegal_move_atomicity_amended.2.2.2 c5w_state c5w_move (by decide)⟩

theorem countDir_ge (b : Board) (piece : Piece) (dr dc : Int) :
    ∀ (j fuel : Nat) (r c : Int), j ≤ fuel →
      (∀ t : Nat, t < j → okCell b piece (r + t * dr) (c + t * dc)) →
      j ≤ countDir b piece dr dc fuel r c := by
  intro j
  induction j with
  | zero => intro fuel r c _ _; exact Nat.zero_le _
  | succ n ih =>
    intro fuel r c hj hok
    cases fuel with
    | zero => omega
    | succ f =>
      rw [countDir]
      have h0 : okCell b piece r c := by
        have := hok 0 (by omega)
        simpa using this
      rw [if_pos h0]
      have hshift : ∀ t : Nat, t < n →
          okCell b piece (r + dr + t * dr) (c + dc + t * dc) := by
        intro t ht
        have := hok (t + 1) (by omega)
        have harg1 : r + (↑(t + 1) : Int) * dr = r + dr + ↑t * dr := by push_cast; ring
        have harg2 : c + (↑(t + 1) : Int) * dc = c + dc + ↑t * dc := by push_cast; ring
        rwa [harg1, harg2] at this
      have := ih f (r + dr) (c + dc) (by omega) hshift
      omega

theorem countDir_ok (b : Board) (piece : Piece) (dr dc : Int) :
    ∀ (fuel : Nat) (r c : Int) (t : Nat),
      t < countDir b piece dr dc fuel r c →
      okCell b piece (r + t * dr) (c + t * dc) := by
  intro fuel
  induction fuel with
  | zero => intro r c t ht; rw [countDir] at ht; omega
  | succ f ih =>
    intro r c t ht
    rw [countDir] at ht
    by_cases h0 : okCell b piece r c
    · rw [if_pos h0] at ht
      cases t with
      | zero => simpa using h0
      | succ n =>
        have := ih (r + dr) (c + dc) n (by omega)
        have harg1 : r + (↑(n + 1) : Int) * dr = r + dr + ↑n * dr := by push_cast; ring
        have harg2 : c + (↑(n + 1) : Int) * dc = c + dc + ↑n * dc := by push_cast; ring
        rwa [harg1, harg2]
    · rw [if_neg h0] at ht
      omega

theorem mem_winOffsets (s : Int) : s ∈ winOffsets ↔ -4 ≤ s ∧ s ≤ 0 := by
  simp [winOffsets]
  omega

theorem mem_winSteps (t : Int) : t ∈ winSteps ↔ 0 ≤ t ∧ t ≤ 4 := by
  simp [winSteps]
  omega

theorem run_window_iff (b : Board) (p : Position) (piece : Piece)
    (hp : okCell b piece p.row p.col) (dr dc : Int) (hd : (dr, dc) ∈ dirs4) :
    (1 + countDir b piece (-dr) (-dc) (b.size + 1) (p.row - dr) (p.col - dc)
       + countDir b piece dr dc (b.size + 1) (p.row + dr) (p.col + dc) ≥ 5) ↔
    (∃ s ∈ winOffsets, ∀ t ∈ winSteps,
      okCell b piece (p.row + (s + t) * dr) (p.col + (s + t) * dc)) := by
  set back := countDir b piece (-dr) (-dc) (b.size + 1) (p.row - dr) (p.col - dc)
    with hback
  set fwd := countDir b piece dr dc (b.size + 1) (p.row + dr) (p.col + dc)
    with hfwd
  have hbw : ∀ t : Nat, t < back →
      okCell b piece (p.row - (↑t + 1) * dr) (p.col - (↑t + 1) * dc) := by
    intro t ht
    have := countDir_ok b piece (-dr) (-dc) (b.size + 1)
      (p.row - dr) (p.col - dc) t (by rw [← hback]; omega)
    have harg1 : p.row - dr + ↑t * -dr = p.row - (↑t + 1) * dr := by ring
    have harg2 : p.col - dc + ↑t * -dc = p.col - (↑t + 1) * dc := by ring
    rwa [harg1, harg2] at this
  have hfw : ∀ t : Nat, t < fwd →
      okCell b piece (p.row + (↑t + 1) * dr) (p.col + (↑t + 1) * dc) := by
    intro t ht
    have := countDir_ok b piece dr dc (b.size + 1)
      (p.row + dr) (p.col + dc) t (by rw [← hfwd]; omega)
    have harg1 : p.row + dr + ↑t * dr = p.row + (↑t + 1) * dr := by ring
    have harg3 : p.col + dc + ↑t * dc = p.col + (↑t + 1) * dc := by ring
    rwa [harg1, harg3] at this
  constructor
  · intro h5
    refine ⟨-(↑(min back 4) : Int), (mem_winOffsets _).mpr (by omega), ?_⟩
    intro t htm
    rw [mem_winSteps] at htm
    set o : Int := -(↑(min back 4) : Int) + t with ho
    rcases lt_trichotomy o 0 with hneg | hzero | hpos
    · have h1 : 1 ≤ -o := by omega
      have h2 : -o ≤ ↑back := by omega
      have := hbw ((-o).toNat - 1) (by omega)
      have harg1 : p.row - (↑((-o).toNat - 1) + 1) * dr = p.row + o * dr := by
        have hcast : (↑((-o).toNat - 1) : Int) = -o - 1 := by omega
        rw [hcast]; ring
      have harg2 : p.col - (↑((-o).toNat - 1) + 1) * dc = p.col + o * dc := by
        have hcast : (↑((-o).toNat - 1) : Int) = -o - 1 := by omega
        rw [hcast]; ring
      rwa [harg1, harg2] at this
    · rw [hzero]
      simpa using hp
    · have hlt4 : back < 4 := by omega
      have h2 : o ≤ ↑fwd := by
        have : (min back 4) = back := by omega
        omega
      have := hfw (o.toNat - 1) (by omega)
      have harg1 : p.row + (↑(o.toNat - 1) + 1) * dr = p.row + o * dr := by
        have hcast : (↑(o.toNat - 1) : Int) = o - 1 := by omega
        rw [hcast]; ring
      have harg2 : p.col + (↑(o.toNat - 1) + 1) * dc = p.col + o * dc := by
        have hcast : (↑(o.toNat - 1) : Int) = o - 1 := by omega
        rw [hcast]; ring
      rwa [harg1, harg2] at this
  · rintro ⟨s, hs, hw⟩
    rw [mem_winOffsets] at hs
    have hw' : ∀ t : Int, 0 ≤ t → t ≤ 4 →
        okCell b piece (p.row + (s + t) * dr) (p.col + (s + t) * dc) := by
      intro t h1 h2
      exact hw t ((mem_winSteps t).mpr ⟨h1, h2⟩)
    have hsize : 5 ≤ b.size := by
      have h0 := hw' 0 (by omega) (by omega)
      have h4 := hw' 4 (by omega) (by omega)
      obtain ⟨hb0, _⟩ := h0
      obtain ⟨hb4, _⟩ := h4
      simp only [dirs4, List.mem_cons, List.mem_singleton, Prod.mk.injEq] at hd
      rcases hd with ⟨rfl, rfl⟩ | ⟨rfl, rfl⟩ | ⟨rfl, rfl⟩ | ⟨rfl, rfl⟩ | h
      · omega
      · omega
      · omega
      · omega
      · cases h
    have hb : (-s).toNat ≤ back := by
      apply countDir_ge b piece (-dr) (-dc) (-s).toNat (b.size + 1)
        (p.row - dr) (p.col - dc) (by omega)
      intro t ht
      have hrange : -(↑t : Int) - 1 - s ≥ 0 ∧ -(↑t : Int) - 1 - s ≤ 4 := by omega
      have := hw' (-(↑t : Int) - 1 - s) hrange.1 hrange.2
      have harg1 : p.row + (s + (-(↑t : Int) - 1 - s)) * dr = p.row - dr + ↑t * -dr := by
        ring
      have harg2 : p.col + (s + (-(↑t : Int) - 1 - s)) * dc = p.col - dc + ↑t * -dc := by
        ring
      rwa [harg1, harg2] at this
    have hf : (s + 4).toNat ≤ fwd := by
      apply countDir_ge b piece dr dc (s + 4).toNat (b.size + 1)
        (p.row + dr) (p.col + dc) (by omega)
      intro t ht
      have hrange : (↑t : Int) + 1 - s ≥ 0 ∧ (↑t : Int) + 1 - s ≤ 4 := by omega
      have := hw' ((↑t : Int) + 1 - s) hrange.1 hrange.2
      have harg1 : p.row + (s + ((↑t : Int) + 1 - s)) * dr = p.row + dr + ↑t * dr := by
        ring
      have harg2 : p.col + (s + ((↑t : Int) + 1 - s)) * dc = p.col + dc + ↑t * dc := by
        ring
      rwa [harg1, harg2] at this
    omega

theorem is_five_iff (b : Board) (p : Position) (piece : Piece)
    (hp : okCell b piece p.row p.col) :
    is_five_in_a_row b p piece = true ↔ hasFiveRun b p piece := by
  unfold is_five_in_a_row hasFiveRun
  rw [List.any_eq_true]
  constructor
  · rintro ⟨d, hd, hcond⟩
    refine ⟨d, hd, ?_⟩
    rw [← run_window_iff b p piece hp d.1 d.2 (by rwa [Prod.mk.eta])]
    exact of_decide_eq_true hcond
  · rintro ⟨d, hd, hwin⟩
    refine ⟨d, hd, ?_⟩
    apply decide_eq_true
    exact (run_window_iff b p piece hp d.1 d.2 (by rwa [Prod.mk.eta])).mpr hwin

theorem board_full_iff (b : Board) :
    GomokuGame.board_full b = true ↔ board_full_prop b := by
  unfold GomokuGame.board_full board_full_prop
  rw [List.all_eq_true]
  constructor
  · intro h r hr c hc
    have hrmem := h r (List.mem_range.mpr hr)
    rw [List.all_eq_true] at hrmem
    have := hrmem c (List.mem_range.mpr hc)
    simpa using this
  · intro h r hrmem
    rw [List.all_eq_true]
    intro c hcmem
    rw [List.mem_range] at hrmem hcmem
    simpa using h r hrmem c hcmem

theorem Replayer.seek_cases {Core Snap : Type} (E : EngineOps Core Snap)
    (rp rp' : Replayer Core Snap) (n : Int)
    (h : Replayer.seek E rp n = .ok rp') :
    (rp.clamp n = rp.index ∧ rp' = rp) ∨
    (Replayer.seek_compute E rp (rp.clamp n) = .ok rp'.core ∧
      rp'.events = rp.events ∧ rp'.snapshots = rp.snapshots ∧ rp'.k = rp.k ∧
      rp'.index = rp.clamp n) := by
  unfold Replayer.seek at h
  by_cases hc : rp.clamp n = rp.index
  · rw [if_pos hc] at h
    cases h
    exact Or.inl ⟨hc, rfl⟩
  · rw [if_neg hc] at h
    cases hsc : Replayer.seek_compute E rp (rp.clamp n) with
    | error e => rw [hsc] at h; simp [bind, Except.bind] at h
    | ok c =>
      rw [hsc] at h
      have h2 : ({ rp with core := c, index := rp.clamp n } : Replayer Core Snap) = rp' := by
        injection h
      subst h2
      exact Or.inr ⟨rfl, rfl, rfl, rfl, rfl⟩

theorem Replayer.clamp_congr {Core Snap : Type} (rp rq : Replayer Core Snap)
    (he : rp.events = rq.events) (n : Int) : rp.clamp n = rq.clamp n := by
  unfold Replayer.clamp
  rw [he]

theorem Replayer.seek_compute_congr {Core Snap : Type} (E : EngineOps Core Snap)
    (rp rq : Replayer Core Snap) (n : Int)
    (he : rp.events = rq.events) (hsn : rp.snapshots = rq.snapshots)
    (hk : rp.k = rq.k) (hs : rq.snapshots ≠ []) :
    Replayer.seek_compute E rp n = Replayer.seek_compute E rq n := by
  unfold Replayer.seek_compute
  rw [he, hsn, hk]
  rcases hl : rq.snapshots with _ | ⟨s0, rest⟩
  · exact absurd hl hs
  · rfl

theorem Replayer.seek_data {Core Snap : Type} (E : EngineOps Core Snap)
    (rp rp' : Replayer Core Snap) (n : Int)
    (h : Replayer.seek E rp n = .ok rp') :
    rp'.events = rp.events ∧ rp'.snapshots = rp.snapshots ∧ rp'.k = rp.k ∧
    rp'.index = rp.clamp n := by
  rcases Replayer.seek_cases E rp rp' n h with ⟨hc, rfl⟩ | ⟨_, he, hsn, hk, hi⟩
  · exact ⟨rfl, rfl, rfl, hc.symm⟩
  · exact ⟨he, hsn, hk, hi⟩

theorem Replayer.seek_good {Core Snap : Type} (E : EngineOps Core Snap)
    (rp rp' : Replayer Core Snap) (n : Int) (hs : rp.snapshots ≠ [])
    (hgood : Replayer.seek_compute E rp rp.index = .ok rp.core)
    (h : Replayer.seek E rp n = .ok rp') :
    Replayer.seek_compute E rp' rp'.index = .ok rp'.core := by
  rcases Replayer.seek_cases E rp rp' n h with ⟨_, rfl⟩ | ⟨hsc, he, hsn, hk, hi⟩
  · exact hgood
  · rw [hi, Replayer.seek_compute_congr E rp' rp (rp.clamp n) he hsn hk hs]
    exact hsc

theorem Replayer.load_good {Core Snap : Type} (E : EngineOps Core Snap)
    (fresh : Core) (snaps : List Snap) (events : List ReplayEvent) (k : Nat)
    (hs : snaps ≠ []) :
    Replayer.seek_compute E (Replayer.load E fresh snaps events k)
      (Replayer.load E fresh snaps events k).index =
      .ok (Replayer.load E fresh snaps events k).core := by
  obtain ⟨s0, rest, rfl⟩ := List.exists_cons_of_ne_nil hs
  rfl

/-- C6 (amended).  Replay seek determinism/idempotence holds for every
loaded replay that has at least one keyframe snapshot (which every
recorder-produced log does): starting from `load`, the state after
`seek(n); seek(m); seek(n)` is identical — same game core, hence
bit-identical board, and same cursor — to the state after the first
`seek(n)`, for any `n`, `m` and any engine driven through the replayer's
duck-typed interface. -/
theorem replay_seek_idempotent {Core Snap : Type} (E : EngineOps Core Snap)
    (fresh : Core) (snaps : List Snap) (events : List ReplayEvent) (k : Nat)
    (hs : snaps ≠ []) (n m : Int) (rp1 rp2 rp3 : Replayer Core Snap)
    (h1 : Replayer.seek E (Replayer.load E fresh snaps events k) n = .ok rp1)
    (h2 : Replayer.seek E rp1 m = .ok rp2)
    (h3 : Replayer.seek E rp2 n = .ok rp3) :
    rp3.core = rp1.core ∧ rp3.index = rp1.index := by
  set rp0 := Replayer.load E fresh snaps events k with hrp0
  have hs0 : rp0.snapshots ≠ [] := hs
  obtain ⟨he1, hsn1, hk1, hi1⟩ := Replayer.seek_data E rp0 rp1 n h1
  obtain ⟨he2, hsn2, hk2, hi2⟩ := Replayer.seek_data E rp1 rp2 m h2
  obtain ⟨he3, hsn3, hk3, hi3⟩ := Replayer.seek_data E rp2 rp3 n h3
  have hs1 : rp1.snapshots ≠ [] := by rw [hsn1]; exact hs0
  have hs2 : rp2.snapshots ≠ [] := by rw [hsn2]; exact hs1
  have hs3 : rp3.snapshots ≠ [] := by rw [hsn3]; exact hs2
  have hgood0 := Replayer.load_good E fresh snaps events k hs
  have hgood1 := Replayer.seek_good E rp0 rp1 n hs0 hgood0 h1
  have hgood2 := Replayer.seek_good E rp1 rp2 m hs1 hgood1 h2
  have hgood3 := Replayer.seek_good E rp2 rp3 n hs2 hgood2 h3
  have hidx : rp3.index = rp1.index := by
    rw [hi3, hi1]
    rw [Replayer.clamp_congr rp2 rp0 (by rw [he2, he1]) n]
  refine ⟨?_, hidx⟩
  have hcon : Replayer.seek_compute E rp3 rp3.index =
      Replayer.seek_compute E rp1 rp1.index := by
    rw [hidx]
    exact Replayer.seek_compute_congr E rp3 rp1 rp1.index
      (by rw [he3, he2]) (by rw [hsn3, hsn2]) (by rw [hk3, hk2]) hs1
  rw [hcon, hgood1] at hgood3
  exact ((Except.ok.injEq _ _).mp hgood3).symm

/-- C6 (counterexample).  A replay loaded with an *empty* snapshot list
replays from the current state instead of restoring a keyframe, so seeking
is not idempotent: after `seek(0); seek(2); seek(0)` on a three-move
territory log (Black (0,0), then White (0,1) and White (1,0) capturing the
corner), the board differs from the board after the first `seek(0)`. -/
theorem seek_no_snapshot_counterexample :
    Replayer.seek GoGame.ops c6_rp0 0 = .ok c6_rp1 ∧
    Replayer.seek GoGame.ops c6_rp1 2 = .ok c6_rp2 ∧
    Replayer.seek GoGame.ops c6_rp2 0 = .ok c6_rp3 ∧
    c6_rp3.core.board ≠ c6_rp1.core.board := by
  refine ⟨by decide, by decide, by decide, by decide⟩

/-- C6 (witness).  The amended idempotence at a concrete input: a one-event
go replay with its keyframe, seeking 0, then -1, then 0 again. -/
theorem replay_seek_idempotent_witness :
    ([c6w_snap] : List GoSnap) ≠ [] ∧
    Replayer.seek GoGame.ops c6w_rp0 0 = .ok c6w_rp1 ∧
    Replayer.seek GoGame.ops c6w_rp1 (-1) = .ok c6w_rp2 ∧
    Replayer.seek GoGame.ops c6w_rp2 0 = .ok c6w_rp3 ∧
    (c6w_rp3.core = c6w_rp1.core ∧ c6w_rp3.index = c6w_rp1.index) := by
  have e1 : Replayer.seek GoGame.ops c6w_rp0 0 = .ok c6w_rp1 := by decide
  have e2 : Replayer.seek GoGame.ops c6w_rp1 (-1) = .ok c6w_rp2 := by decide
  have e3 : Replayer.seek GoGame.ops c6w_rp2 0 = .ok c6w_rp3 := by decide
  exact ⟨by decide, e1, e2, e3,
    replay_seek_idempotent GoGame.ops goFresh8 [c6w_snap] c6w_events 10
      (by decide) 0 (-1) c6w_rp1 c6w_rp2 c6w_rp3 e1 e2 e3⟩
